import Mathlib

/-!
Verification development for the quiz markdown parser and Anki exporter of
the `markdown-quiz-exporter-tool` repository.  The Python source
(`markdown_quiz_exporter_tool/quiz_parser.py` and
`markdown_quiz_exporter_tool/anki.py`) is shallowly embedded below:
pure functions become Lean functions, the stateful `QuizParser` object
becomes explicit state passing, and raised exceptions become `Except`
values.  Whitespace handling models Python's ASCII whitespace
(`str.strip`, `re` `\s`); inputs are treated as sequences of Unicode
characters, with the ASCII whitespace set `[ \t\n\r\x0b\x0c]`.
-/

/-- Python ASCII whitespace, as matched by `str.strip()` and `\s` for
ASCII text: space, tab, newline, carriage return, vertical tab, form feed. -/
def isPySpace (c : Char) : Bool :=
  c == ' ' || c == '\t' || c == '\n' || c == '\r' || c == '\x0b' || c == '\x0c'

/-- Python `str.lower()` restricted to ASCII letters. -/
def pyLowerChar (c : Char) : Char :=
  if 'A' ≤ c && c ≤ 'Z' then Char.ofNat (c.toNat + 32) else c

/-- Strip leading and trailing Python whitespace from a character list
(the list-level core of Python `str.strip()`). -/
def trimChars (l : List Char) : List Char :=
  ((l.dropWhile isPySpace).reverse.dropWhile isPySpace).reverse

/-- Python `str.strip()` (ASCII whitespace model). -/
def pyStrip (s : String) : String :=
  String.mk (trimChars s.toList)

/-- Python `block.split("\n")` at the character level: split on every
newline character, keeping empty pieces. -/
def splitNlChars : List Char → List (List Char)
  | [] => [[]]
  | '\n' :: rest => [] :: splitNlChars rest
  | c :: rest =>
    match splitNlChars rest with
    | p :: ps => (c :: p) :: ps
    | [] => [[c]]

/-- Python `content.split("\n")`, used by the parser to turn a block (or the
whole file) into its list of lines. -/
def pyLines (s : String) : List String :=
  (splitNlChars s.toList).map String.mk

/-- Character-level worker for Python `content.split("---")`: scan left to
right, cutting at every (non-overlapping, leftmost) occurrence of the
three-dash separator, exactly as `str.split` does. -/
def splitDashesGo (acc : List Char) : List Char → List (List Char)
  | '-' :: '-' :: '-' :: rest => acc.reverse :: splitDashesGo [] rest
  | c :: cs => splitDashesGo (c :: acc) cs
  | [] => [acc.reverse]

/-- The block splitter of `QuizParser.parse`:
`blocks = content.split(self.QUESTION_SEPARATOR)` with
`QUESTION_SEPARATOR = "---"`. -/
def splitBlocks (content : String) : List String :=
  (splitDashesGo [] content.toList).map String.mk

/-- Does a character list contain an occurrence of the `---` separator?
(Used to state what the splitter guarantees about the produced blocks.) -/
def hasSepDashes : List Char → Bool
  | '-' :: '-' :: '-' :: _ => true
  | _ :: cs => hasSepDashes cs
  | [] => false

/-- Python `sep.join(xs)`. -/
def pyJoin (sep : String) : List String → String
  | [] => ""
  | [x] => x
  | x :: xs => x ++ sep ++ pyJoin sep xs

/-- Python `block.count("\n")`: the number of newline characters. -/
def countNewlines (s : String) : Nat :=
  (s.toList.filter (fun c => c == '\n')).length

/-- Match one answer-line pattern
(`^-\s+\(([Xx ])\)\s*(.*)$` or `^-\s+\[([Xx ])\]\s*(.*)$`,
parameterised by the bracket pair).  Returns the captured correctness flag
and the captured remainder-of-line text.  A `$`-anchored `(.*)` group
cannot contain a newline, except that a single trailing newline is allowed
before `$` and excluded from the capture. -/
def matchAnswer (opener closer : Char) (line : String) : Option (Char × String) :=
  match line.toList with
  | c0 :: rest =>
    if c0 = '-' then
      if rest.takeWhile isPySpace = [] then none
      else
        match rest.dropWhile isPySpace with
        | o :: f :: c :: rest2 =>
          if o = opener ∧ c = closer ∧ (f = 'X' ∨ f = 'x' ∨ f = ' ') then
            let afterWs := rest2.dropWhile isPySpace
            let captured := if afterWs.getLast? = some '\n' then afterWs.dropLast else afterWs
            if '\n' ∈ captured then none else some (f, String.mk captured)
          else none
        | _ => none
    else none
  | [] => none

/-- `QuizParser.SINGLE_CHOICE_PATTERN.match(line)`. -/
def matchSingle (line : String) : Option (Char × String) :=
  matchAnswer '(' ')' line

/-- `QuizParser.MULTIPLE_CHOICE_PATTERN.match(line)`. -/
def matchMultiple (line : String) : Option (Char × String) :=
  matchAnswer '[' ']' line

/-- `QuizParser._is_answer_line`. -/
def isAnswerLine (line : String) : Bool :=
  (matchSingle line).isSome || (matchMultiple line).isSome

/-- The combined matching step of `_parse_question_block`: try the single
pattern first, then the multiple pattern, and report which one matched. -/
def matchAnswerAny (line : String) : Option (Char × String × String) :=
  match matchSingle line with
  | some (f, t) => some (f, t, "single")
  | none =>
    match matchMultiple line with
    | some (f, t) => some (f, t, "multiple")
    | none => none

/-- The answer type a matching line establishes (single is tried first). -/
def typeOfLine (line : String) : String :=
  if (matchSingle line).isSome then "single" else "multiple"

/-- `line.strip().lower() == "# reason"` (the reason-marker test). -/
def isReasonMarker (line : String) : Bool :=
  (pyStrip line).toList.map pyLowerChar == "# reason".toList

/-- `match.group(1).upper() == "X"`. -/
def isCorrectFlag (f : Char) : Bool :=
  f == 'X' || f == 'x'

/-- Dataclass `Answer`. -/
structure Answer where
  text : String
  is_correct : Bool
deriving DecidableEq, Repr

/-- Dataclass `Question`. -/
structure Question where
  text : String
  answers : List Answer
  reason : String
  question_type : String
deriving DecidableEq, Repr

/-- Dataclass `ParseError` (the structured diagnostic payload). -/
structure ParseError where
  line_number : Nat
  line_content : String
  error_message : String
  block_number : Nat
  context_before : List String
  context_after : List String
deriving DecidableEq, Repr

/-- Exception `QuizParseError`: `plain` models raising with
`parse_error = None`, `detailed` models raising with an attached
`ParseError` payload. -/
inductive QuizParseError where
  | plain (message : String)
  | detailed (message : String) (parse_error : ParseError)
deriving DecidableEq, Repr

/-- The information a failing `_parse_question_block` hands to
`_raise_parse_error`: the 0-indexed line index within the block, the
content of that line, and the error message. -/
structure BlockFailure where
  lineIdx : Nat
  lineContent : String
  message : String
deriving DecidableEq, Repr

/-- Error message for a mixed-shape block. -/
def mixedTypesMsg : String :=
  "Mixed answer types: Cannot mix ( ) and [ ] formats in same question"

/-- Error message for a block with no answer lines. -/
def noAnswersMsg : String :=
  "No answers found. Expected format: \x27- (X) text\x27 or \x27- [X] text\x27"

/-- Error message for a block whose answers are all unmarked. -/
def noCorrectMsg : String :=
  "No correct answer marked. Use (X) or [X] to mark correct answers"

/-- Error message for a block with no question text. -/
def noQuestionTextMsg : String := "No question text found"

/-- Error message for a file with zero usable blocks. -/
def noQuestionsFoundMsg : String := "No questions found in the quiz file"

/-- The type-consistency test of `_parse_question_block`: an established
`question_type` that differs from the current line's type is fatal
(`question_type is None` establishes the type instead). -/
def qtConflict (qt : Option String) (atype : String) : Bool :=
  match qt with
  | some q => q != atype
  | none => false

/-- The inner `while` of `_parse_question_block`: after a matched answer
line, consume following lines until the next answer line, the reason
marker, or the end of the block.  Returns the consumed continuation lines
and the remaining lines. -/
def takeContinuation : List String → List String × List String
  | [] => ([], [])
  | l :: ls =>
    if isAnswerLine l then ([], l :: ls)
    else if isReasonMarker l then ([], l :: ls)
    else
      let (c, r) := takeContinuation ls
      (l :: c, r)

/-- Build one answer's text from the marker line's captured remainder and
the consumed continuation lines:
`answer_lines = [first] if first else []`, then append, newline-join,
and strip. -/
def answerTextFrom (t : String) (cont : List String) : String :=
  pyStrip (pyJoin "\n" ((if t = "" then [] else [t]) ++ cont))

/-- The answer-collection loop of `_parse_question_block` (the `while i <
len(lines)` loop).  `rest` is `lines[i:]`, `i` the current index, `qt`
the established `question_type`.  Returns the collected answers, the
final `question_type`, and `reason_start_idx` (the block length when no
reason marker was seen).  The `fuel` argument makes the index-driven loop
structurally recursive; it is always called with fuel at least
`rest.length`, which the loop never exhausts. -/
def collectAnswers : Nat → List String → Nat → Option String →
    Except BlockFailure (List Answer × Option String × Nat)
  | _, [], i, qt => .ok ([], qt, i)
  | 0, _ :: _, i, qt => .ok ([], qt, i)
  | fuel + 1, line :: ls, i, qt =>
    if isReasonMarker line then .ok ([], qt, i)
    else
      match matchAnswerAny line with
      | none => collectAnswers fuel ls (i + 1) qt
      | some (f, t, atype) =>
        if qtConflict qt atype then
          .error ⟨i, line, mixedTypesMsg⟩
        else
          let qt' := qt.getD atype
          let (cont, rest2) := takeContinuation ls
          match collectAnswers fuel rest2 (i + 1 + cont.length) (some qt') with
          | .error e => .error e
          | .ok (as, qtf, ridx) =>
            .ok (⟨answerTextFrom t cont, isCorrectFlag f⟩ :: as, qtf, ridx)

/-- `answer_start_idx`: initialised to 0, set to the index of the first
answer line when one exists. -/
def answerStartOf (lines : List String) : Nat :=
  (lines.findIdx? isAnswerLine).getD 0

/-- The question text: all lines before the first answer line (all lines
when there is none), newline-joined and stripped. -/
def questionTextOf (lines : List String) : String :=
  pyStrip (pyJoin "\n"
    (match lines.findIdx? isAnswerLine with
     | some i => lines.take i
     | none => lines))

/-- The `for i in range(answer_start_idx, len(lines))` search for the
first answer line, used by the no-correct-answer error path. -/
def firstAnswerFrom (lines : List String) (astart : Nat) : Option Nat :=
  ((lines.drop astart).findIdx? isAnswerLine).map (astart + ·)

/-- Assemble the returned `Question`: reason from the lines after
`reason_start_idx`, `question_type` defaulting to `"single"`. -/
def buildQuestion (qtext : String) (answers : List Answer) (qtype : Option String)
    (reasonIdx : Nat) (lines : List String) : Question :=
  { text := qtext
    answers := answers
    reason := pyStrip (pyJoin "\n" (lines.drop (reasonIdx + 1)))
    question_type := qtype.getD "single" }

/-- The answer-collection call made by `_parse_question_block` for a
block: scan from `answer_start_idx` with no established type. -/
def collectAnswersOf (block : String) :
    Except BlockFailure (List Answer × Option String × Nat) :=
  let lines := pyLines block
  collectAnswers lines.length (lines.drop (answerStartOf lines)) (answerStartOf lines) none

/-- `QuizParser._parse_question_block` (without the block number, which
only enters the diagnostic payload and is added by the caller). -/
def parseQuestionBlock (block : String) : Except BlockFailure Question :=
  let lines := pyLines block
  let qtext := questionTextOf lines
  if qtext = "" then
    .error ⟨0, lines.headD "", noQuestionTextMsg⟩
  else
    match collectAnswersOf block with
    | .error e => .error e
    | .ok (answers, qtype, reasonIdx) =>
      if answers.isEmpty then
        let astart := answerStartOf lines
        let lineIdx := if astart < lines.length then astart else 0
        .error ⟨lineIdx, lines.getD lineIdx "", noAnswersMsg⟩
      else if answers.all (fun a => !a.is_correct) then
        match firstAnswerFrom lines (answerStartOf lines) with
        | some i2 => .error ⟨i2, lines.getD i2 "", noCorrectMsg⟩
        | none => .ok (buildQuestion qtext answers qtype reasonIdx lines)
      else .ok (buildQuestion qtext answers qtype reasonIdx lines)

/-- `QuizParser._raise_parse_error`'s payload construction: absolute line
number `line_offset + line_idx_in_block + 1`, up to two context lines
before and after the failing line taken from the block's own line list. -/
def mkParseError (lineOffset lineIdx : Nat) (lineContent msg : String)
    (blockNumber : Nat) (blockLines : List String) : ParseError :=
  { line_number := lineOffset + lineIdx + 1
    line_content := lineContent
    error_message := msg
    block_number := blockNumber
    context_before := (blockLines.take lineIdx).drop (lineIdx - 2)
    context_after := (blockLines.drop (lineIdx + 1)).take 2 }

/-- The exception raised by `_raise_parse_error`:
`QuizParseError(f"Error at line {absolute_line}: {error_message}", parse_error)`. -/
def raisedQuizError (lineOffset lineIdx : Nat) (lineContent msg : String)
    (blockNumber : Nat) (blockLines : List String) : QuizParseError :=
  .detailed ("Error at line " ++ Nat.repr (lineOffset + lineIdx + 1) ++ ": " ++ msg)
    (mkParseError lineOffset lineIdx lineContent msg blockNumber blockLines)

/-- `block_line_count`: the block's newline count plus one, plus one for
the separator on every block except the last (`i < len(blocks) - 1`). -/
def blockLineCount (b : String) (i n : Nat) : Nat :=
  countNewlines b + 1 + (if i < n - 1 then 1 else 0)

/-- The `for i, block in enumerate(blocks)` loop of `QuizParser.parse`:
`i` is the block index, `n` the number of blocks, `cur` the running
`current_line` bookkeeping.  Whitespace-only blocks are skipped (their
line count still advances `cur`); the first failing block aborts with the
raised error. -/
def parseLoop : List String → Nat → Nat → Nat → Except QuizParseError (List Question)
  | [], _, _, _ => .ok []
  | b :: rest, i, n, cur =>
    let cnt := blockLineCount b i n
    let b' := pyStrip b
    if b' = "" then parseLoop rest (i + 1) n (cur + cnt)
    else
      match parseQuestionBlock b' with
      | .error f =>
        .error (raisedQuizError cur f.lineIdx f.lineContent f.message (i + 1) (pyLines b'))
      | .ok q =>
        match parseLoop rest (i + 1) n (cur + cnt) with
        | .error e => .error e
        | .ok qs => .ok (q :: qs)

/-- `QuizParser.parse` as a pure function of the file content: split into
blocks, parse them in order, and fail with the plain
`"No questions found in the quiz file"` error when no questions were
collected. -/
def parse (content : String) : Except QuizParseError (List Question) :=
  let blocks := splitBlocks content
  match parseLoop blocks 0 blocks.length 0 with
  | .error e => .error e
  | .ok qs => if qs.isEmpty then .error (.plain noQuestionsFoundMsg) else .ok qs

/-- Each block of the file paired with the `line_offset` bookkeeping value
the parser assigns to it (used to state what the diagnostics contain). -/
def blocksWithOffsets : List String → Nat → Nat → Nat → List (String × Nat)
  | [], _, _, _ => []
  | b :: rest, i, n, cur => (b, cur) :: blocksWithOffsets rest (i + 1) n (cur + blockLineCount b i n)

/-- The mutable fields of the Python `QuizParser` instance. -/
structure QuizParserState where
  questions : List Question
  all_lines : List String
  line_offset : Nat
deriving DecidableEq, Repr

/-- `QuizParser.__init__`: fresh empty state. -/
def initParserState : QuizParserState :=
  { questions := [], all_lines := [], line_offset := 0 }

/-- The block loop of `QuizParser.parse` with the instance state threaded
explicitly: `self.line_offset` is set per block and parsed questions are
appended to `self.questions`. -/
def parseMethodLoop (st : QuizParserState) :
    List String → Nat → Nat → Nat → QuizParserState × Except QuizParseError (List Question)
  | [], _, _, _ => (st, .ok st.questions)
  | b :: rest, i, n, cur =>
    let st1 := { st with line_offset := cur }
    let cnt := blockLineCount b i n
    let b' := pyStrip b
    if b' = "" then parseMethodLoop st1 rest (i + 1) n (cur + cnt)
    else
      match parseQuestionBlock b' with
      | .error f =>
        (st1, .error (raisedQuizError st1.line_offset f.lineIdx f.lineContent f.message
          (i + 1) (pyLines b')))
      | .ok q =>
        parseMethodLoop { st1 with questions := st1.questions ++ [q] } rest (i + 1) n (cur + cnt)

/-- The `parse` method on a given parser state: store `all_lines`, run the
block loop, and raise the plain error when `self.questions` is empty. -/
def parseMethod (st : QuizParserState) (content : String) :
    QuizParserState × Except QuizParseError (List Question) :=
  let st0 := { st with all_lines := pyLines content }
  let blocks := splitBlocks content
  let (st1, res) := parseMethodLoop st0 blocks 0 blocks.length 0
  match res with
  | .error e => (st1, .error e)
  | .ok qs => if qs.isEmpty then (st1, .error (.plain noQuestionsFoundMsg)) else (st1, .ok qs)

/-- Module-level `parse_quiz_file`: construct a fresh `QuizParser` and call
its `parse` method (file I/O is out of scope; the file's content is the
input). -/
def parse_quiz_file (content : String) : Except QuizParseError (List Question) :=
  (parseMethod initParserState content).2

/-- Worker for Python `text.split()` (split on whitespace runs, dropping
empty tokens), used by the Anki exporter's text normalisation. -/
def wsTokensGo (acc : List Char) : List Char → List (List Char)
  | [] => if acc.isEmpty then [] else [acc.reverse]
  | c :: cs =>
    if isPySpace c then
      if acc.isEmpty then wsTokensGo [] cs else acc.reverse :: wsTokensGo [] cs
    else wsTokensGo (c :: acc) cs

/-- Python `text.split()`. -/
def pyWords (s : String) : List String :=
  (wsTokensGo [] s.toList).map String.mk

/-- `AnkiAllInOneExporter._normalize_text`:
`" ".join(text.split())` followed by `.strip()`. -/
def normalizeText (text : String) : String :=
  pyStrip (pyJoin " " (pyWords text))

/-- `AnkiAllInOneExporter._format_answer_options`: normalise every
answer's text, pad with empty strings to five entries, and return the
first five. -/
def formatAnswerOptions (q : Question) : String × String × String × String × String :=
  let options := q.answers.map (fun a => normalizeText a.text)
  let padded := options ++ List.replicate (5 - options.length) ""
  (padded.getD 0 "", padded.getD 1 "", padded.getD 2 "", padded.getD 3 "", padded.getD 4 "")

/-- The five option fields as a list. -/
def optionFieldsList (q : Question) : List String :=
  let (q1, q2, q3, q4, q5) := formatAnswerOptions q
  [q1, q2, q3, q4, q5]

/-- The mutation loop of `_format_answers_binary`: for each enumerated
answer with index below five and `is_correct`, set that bit to `"1"`. -/
def setCorrectBits (bits : List String) : List (Nat × Answer) → List String
  | [] => bits
  | (i, a) :: rest =>
    setCorrectBits (if i < 5 && a.is_correct then bits.set i "1" else bits) rest

/-- The five-entry bit list of `_format_answers_binary`, starting from
`["0"] * 5`. -/
def binaryBits (q : Question) : List String :=
  setCorrectBits (List.replicate 5 "0") q.answers.enum

/-- `AnkiAllInOneExporter._format_answers_binary`: the space-joined bit
list. -/
def formatAnswersBinary (q : Question) : String :=
  pyJoin " " (binaryBits q)

/-- The first index (within the given line list) holding an answer line
whose shape differs from the established type `t`, looking only at lines
before the first reason marker.  This is the line at which
`_parse_question_block` reports the mixed-answer-types error. -/
def firstMismatch (t : String) : List String → Option Nat
  | [] => none
  | l :: ls =>
    if isReasonMarker l then none
    else if isAnswerLine l && typeOfLine l != t then some 0
    else (firstMismatch t ls).map (· + 1)

/-! ### Generic helper lemmas -/

/-- Specification of `List.findIdx?`: a found index is in range, satisfies
the predicate, and is the least such index. -/
theorem findIdx?_spec {α : Type} (p : α → Bool) (d : α) :
    ∀ (l : List α) (k : Nat), l.findIdx? p = some k →
      k < l.length ∧ p (l.getD k d) = true ∧ ∀ j, j < k → p (l.getD j d) = false := by
  intro l
  induction l with
  | nil => intro k h; simp [List.findIdx?_nil] at h
  | cons x xs ih =>
    intro k h
    rw [List.findIdx?_cons] at h
    by_cases hx : p x
    · simp only [hx, if_true] at h
      cases h
      refine ⟨by simp, by simpa using hx, ?_⟩
      intro j hj; omega
    · simp only [hx, if_false, List.findIdx?_succ] at h
      obtain ⟨k', hk', rfl⟩ := Option.map_eq_some'.1 h
      obtain ⟨h1, h2, h3⟩ := ih k' hk'
      refine ⟨by simpa using h1, by simpa using h2, ?_⟩
      intro j hj
      match j with
      | 0 => simpa using hx
      | j + 1 => simpa using h3 j (by omega)

/-- A list whose `findIdx?` is `none` satisfies the predicate nowhere. -/
theorem findIdx?_none_forall {α : Type} (p : α → Bool) (l : List α)
    (h : l.findIdx? p = none) : ∀ x ∈ l, p x = false :=
  List.findIdx?_eq_none_iff.1 h

/-- The head of a nonempty `dropWhile` result falsifies the predicate. -/
theorem dropWhile_head_false {α : Type} {p : α → Bool} :
    ∀ {l : List α} {c : α} {u : List α}, List.dropWhile p l = c :: u → p c = false := by
  intro l
  induction l with
  | nil => intro c u h; simp at h
  | cons x xs ih =>
    intro c u h
    rw [List.dropWhile_cons] at h
    by_cases hx : p x
    · rw [if_pos hx] at h
      exact ih h
    · rw [if_neg hx] at h
      injection h with h1 h2
      subst h1
      simpa using hx

/-- A list headed by a non-whitespace character keeps that head through
`trimChars`. -/
theorem trimChars_cons_of_not_space {c : Char} {l : List Char} (hc : isPySpace c = false) :
    ∃ u, trimChars (c :: l) = c :: u := by
  unfold trimChars
  rw [List.dropWhile_cons, if_neg (by simp [hc])]
  rw [show (c :: l).reverse = l.reverse ++ [c] by simp]
  rw [List.dropWhile_append]
  by_cases he : (List.dropWhile isPySpace l.reverse).isEmpty
  · rw [if_pos he, List.dropWhile_cons, if_neg (by simp [hc])]
    exact ⟨[], by simp⟩
  · rw [if_neg he]
    exact ⟨(List.dropWhile isPySpace l.reverse).reverse, by simp⟩

/-- `trimChars` of an all-whitespace list is empty. -/
theorem trimChars_eq_nil (l : List Char) (h : ∀ c ∈ l, isPySpace c = true) :
    trimChars l = [] := by
  unfold trimChars
  rw [List.dropWhile_eq_nil_iff.2 h]
  simp

/-- `trimChars` of a list containing a non-whitespace character is
nonempty. -/
theorem trimChars_ne_nil (l : List Char) (h : ∃ c ∈ l, isPySpace c = false) :
    trimChars l ≠ [] := by
  have hd : List.dropWhile isPySpace l ≠ [] := by
    intro hnil
    obtain ⟨c, hc, hcf⟩ := h
    have := List.dropWhile_eq_nil_iff.1 hnil c hc
    simp [this] at hcf
  obtain ⟨c, u, hcu⟩ : ∃ c u, List.dropWhile isPySpace l = c :: u := by
    cases hdw : List.dropWhile isPySpace l with
    | nil => exact absurd hdw hd
    | cons c u => exact ⟨c, u, rfl⟩
  have hc : isPySpace c = false := dropWhile_head_false hcu
  unfold trimChars
  rw [hcu]
  obtain ⟨u', hu'⟩ := trimChars_cons_of_not_space (l := u) hc
  unfold trimChars at hu'
  rw [List.dropWhile_cons, if_neg (by simp [hc])] at hu'
  rw [hu']
  simp

/-- Appending all-whitespace characters does not change `trimChars`. -/
theorem trimChars_append_ws (a b : List Char) (hb : ∀ c ∈ b, isPySpace c = true) :
    trimChars (a ++ b) = trimChars a := by
  by_cases ha : ∀ c ∈ a, isPySpace c = true
  · rw [trimChars_eq_nil a ha, trimChars_eq_nil]
    intro c hc
    rcases List.mem_append.1 hc with h | h
    · exact ha c h
    · exact hb c h
  · push_neg at ha
    obtain ⟨c0, hc0, hc0f⟩ := ha
    have hc0f : isPySpace c0 = false := by
      cases h : isPySpace c0
      · rfl
      · exact absurd h hc0f
    unfold trimChars
    have hdw : List.dropWhile isPySpace (a ++ b) = List.dropWhile isPySpace a ++ b := by
      rw [List.dropWhile_append]
      have : ¬ (List.dropWhile isPySpace a).isEmpty := by
        simp only [List.isEmpty_iff]
        intro hnil
        have := List.dropWhile_eq_nil_iff.1 hnil c0 hc0
        simp [this] at hc0f
      simp [this]
    rw [hdw, List.reverse_append, List.dropWhile_append]
    have hbrev : List.dropWhile isPySpace b.reverse = [] := by
      rw [List.dropWhile_eq_nil_iff]
      intro c hc
      exact hb c (by simpa using hc)
    simp [hbrev]

/-- `String.mk` is injective (strings are their character lists). -/
theorem stringMk_eq_empty_iff (l : List Char) : String.mk l = "" ↔ l = [] := by
  constructor
  · intro h
    have := congrArg String.toList h
    simpa using this
  · intro h; rw [h]

/-- A string is stripped to empty iff it is all whitespace. -/
theorem pyStrip_eq_empty_iff (s : String) :
    pyStrip s = "" ↔ ∀ c ∈ s.toList, isPySpace c = true := by
  unfold pyStrip
  rw [stringMk_eq_empty_iff]
  constructor
  · intro h c hc
    by_contra hcf
    exact trimChars_ne_nil s.toList ⟨c, hc, by simpa using hcf⟩ h
  · exact trimChars_eq_nil s.toList

/-- Unfolding the character list of a newline-join step. -/
theorem toList_append_nl (x j : String) :
    (x ++ "\n" ++ j).toList = x.toList ++ '\n' :: j.toList := by
  rw [show (x ++ "\n" ++ j).toList = (x.toList ++ ['\n']) ++ j.toList from rfl,
    List.append_assoc]
  rfl

/-- `pyJoin "\n"` of all-whitespace lines consists of whitespace. -/
theorem pyJoin_nl_all_ws : ∀ (xs : List String),
    (∀ l ∈ xs, ∀ c ∈ l.toList, isPySpace c = true) →
    ∀ c ∈ (pyJoin "\n" xs).toList, isPySpace c = true := by
  intro xs
  induction xs with
  | nil => intro _ c hc; simp [pyJoin] at hc
  | cons x ys ih =>
    intro h c hc
    cases ys with
    | nil =>
      simp only [pyJoin] at hc
      exact h x (by simp) c hc
    | cons y ys' =>
      simp only [pyJoin] at hc
      rw [toList_append_nl] at hc
      rcases List.mem_append.1 hc with h1 | h1
      · exact h x (by simp) c h1
      · rcases List.mem_cons.1 h1 with h2 | h2
        · subst h2; rfl
        · exact ih (fun l hl => h l (by simp [hl])) c h2

/-- `pyJoin "\n" (x :: xs)` with all-whitespace `xs` is `x` followed by a
whitespace suffix. -/
theorem pyJoin_nl_ws_suffix : ∀ (xs : List String) (x : String),
    (∀ l ∈ xs, ∀ c ∈ l.toList, isPySpace c = true) →
    ∃ suf, (pyJoin "\n" (x :: xs)).toList = x.toList ++ suf ∧
      ∀ c ∈ suf, isPySpace c = true := by
  intro xs
  induction xs with
  | nil =>
    intro x _
    exact ⟨[], by simp [pyJoin], by simp⟩
  | cons y ys _ =>
    intro x h
    refine ⟨'\n' :: (pyJoin "\n" (y :: ys)).toList, toList_append_nl x _, ?_⟩
    intro c hc
    rcases List.mem_cons.1 hc with h2 | h2
    · subst h2; rfl
    · exact pyJoin_nl_all_ws (y :: ys) (fun l hl => h l hl) c h2

/-- An answer's assembled text, when every continuation line is
whitespace-only, is just the stripped marker-line remainder. -/
theorem answerTextFrom_ws (t : String) (cont : List String)
    (h : ∀ l ∈ cont, pyStrip l = "") : answerTextFrom t cont = pyStrip t := by
  have hws : ∀ l ∈ cont, ∀ c ∈ l.toList, isPySpace c = true := by
    intro l hl
    exact (pyStrip_eq_empty_iff l).1 (h l hl)
  unfold answerTextFrom
  by_cases ht : t = ""
  · subst ht
    simp only [if_pos rfl, List.nil_append]
    rw [show pyStrip "" = "" from rfl]
    rw [pyStrip_eq_empty_iff]
    exact pyJoin_nl_all_ws cont hws
  · rw [if_neg ht, List.singleton_append]
    obtain ⟨suf, hsuf, hsufws⟩ := pyJoin_nl_ws_suffix cont t hws
    unfold pyStrip
    rw [hsuf, trimChars_append_ws _ _ hsufws]

/-! ### Lemmas about answer-line matching -/

/-- `matchAnswerAny` fails exactly when `_is_answer_line` is false. -/
theorem matchAnswerAny_eq_none_iff (l : String) :
    matchAnswerAny l = none ↔ isAnswerLine l = false := by
  unfold matchAnswerAny isAnswerLine
  cases hs : matchSingle l with
  | some v => cases v; simp
  | none =>
    cases hm : matchMultiple l with
    | some v => cases v; simp
    | none => simp

/-- A successful `matchAnswerAny` reports the line's established type and
certifies the line as an answer line. -/
theorem matchAnswerAny_some (l : String) (f : Char) (t ty : String)
    (h : matchAnswerAny l = some (f, t, ty)) :
    ty = typeOfLine l ∧ isAnswerLine l = true := by
  unfold matchAnswerAny at h
  unfold typeOfLine isAnswerLine
  cases hs : matchSingle l with
  | some v =>
    cases v
    rw [hs] at h
    simp only [Option.some.injEq, Prod.mk.injEq] at h
    simp [hs, h]
  | none =>
    rw [hs] at h
    cases hm : matchMultiple l with
    | some v =>
      cases v
      rw [hm] at h
      simp only [Option.some.injEq, Prod.mk.injEq] at h
      simp [hs, hm, h]
    | none => rw [hm] at h; exact absurd h (by simp)

/-- A matching line starts with a dash at column zero. -/
theorem matchAnswer_head_dash {opener closer : Char} {l : String} {v : Char × String}
    (h : matchAnswer opener closer l = some v) : ∃ rest, l.toList = '-' :: rest := by
  unfold matchAnswer at h
  split at h
  next c0 cs heq =>
    by_cases hc0 : c0 = '-'
    · exact ⟨cs, by rw [heq, hc0]⟩
    · rw [if_neg hc0] at h; exact absurd h (by simp)
  next heq => exact absurd h (by simp)

/-- An answer line starts with a dash at column zero. -/
theorem isAnswerLine_head_dash {l : String} (h : isAnswerLine l = true) :
    ∃ rest, l.toList = '-' :: rest := by
  unfold isAnswerLine at h
  rcases Bool.or_eq_true_iff.1 h with h1 | h1
  · exact matchAnswer_head_dash (Option.isSome_iff_exists.1 h1).choose_spec
  · exact matchAnswer_head_dash (Option.isSome_iff_exists.1 h1).choose_spec

/-- An answer line is never the reason marker: stripping keeps its leading
dash, while the reason marker starts with a hash. -/
theorem isAnswerLine_not_reason {l : String} (h : isAnswerLine l = true) :
    isReasonMarker l = false := by
  obtain ⟨rest, hl⟩ := isAnswerLine_head_dash h
  unfold isReasonMarker pyStrip
  rw [hl]
  obtain ⟨u, hu⟩ := trimChars_cons_of_not_space (l := rest) (c := '-') (by decide)
  rw [show (String.mk (trimChars ('-' :: rest))).toList = trimChars ('-' :: rest) from rfl, hu]
  rw [beq_eq_false_iff_ne]
  intro hcontra
  have := congrArg List.head? hcontra
  simp [pyLowerChar] at this

/-! ### Lemmas about the continuation loop -/

/-- The continuation test: a line stops the inner loop when it is an
answer line or the reason marker. -/
def stopsContinuation (l : String) : Bool :=
  isAnswerLine l || isReasonMarker l

/-- The inner loop consumes exactly the maximal run of non-stopping
lines. -/
theorem takeContinuation_eq (ls : List String) :
    takeContinuation ls =
      (ls.takeWhile (fun l => !stopsContinuation l),
       ls.dropWhile (fun l => !stopsContinuation l)) := by
  induction ls with
  | nil => rfl
  | cons l ls ih =>
    unfold takeContinuation stopsContinuation
    by_cases ha : isAnswerLine l
    · simp [ha, List.takeWhile_cons, List.dropWhile_cons, stopsContinuation]
    · by_cases hr : isReasonMarker l
      · simp [ha, hr, List.takeWhile_cons, List.dropWhile_cons, stopsContinuation]
      · simp only [Bool.if_false_left, Bool.if_true_left]
        rw [if_neg (by simp [ha]), if_neg (by simp [hr])]
        rw [ih]
        simp [List.takeWhile_cons, List.dropWhile_cons, stopsContinuation, ha, hr]

/-- The consumed continuation and the remainder reassemble the input. -/
theorem takeContinuation_append (ls : List String) :
    (takeContinuation ls).1 ++ (takeContinuation ls).2 = ls := by
  rw [takeContinuation_eq]
  exact List.takeWhile_append_dropWhile _ _

/-- Every consumed continuation line is neither an answer line nor the
reason marker. -/
theorem takeContinuation_not_stop (ls : List String) :
    ∀ l ∈ (takeContinuation ls).1, isAnswerLine l = false ∧ isReasonMarker l = false := by
  rw [takeContinuation_eq]
  intro l hl
  have := List.mem_takeWhile_imp hl
  simp only [Bool.not_eq_true', stopsContinuation, Bool.or_eq_false_iff] at this
  exact this

/-- The remainder of the continuation split is no longer than the input. -/
theorem takeContinuation_length (ls : List String) :
    (takeContinuation ls).2.length ≤ ls.length := by
  conv_rhs => rw [← takeContinuation_append ls]
  simp

/-- An answer line is matched by `matchAnswerAny`, with the type it
establishes. -/
theorem matchAnswerAny_of_isAnswerLine {l : String} (h : isAnswerLine l = true) :
    ∃ f t0, matchAnswerAny l = some (f, t0, typeOfLine l) := by
  unfold isAnswerLine at h
  unfold matchAnswerAny typeOfLine
  cases hs : matchSingle l with
  | some v =>
    obtain ⟨f, t0⟩ := v
    exact ⟨f, t0, by simp [hs]⟩
  | none =>
    rw [hs] at h
    simp only [Option.isSome_none, Bool.false_or] at h
    cases hm : matchMultiple l with
    | some v =>
      obtain ⟨f, t0⟩ := v
      exact ⟨f, t0, by simp [hs, hm]⟩
    | none => rw [hm] at h; exact absurd h (by simp)

/-! ### Lemmas about the answer-collection loop -/

/-- A run that yields a nonempty answer list saw an answer line. -/
theorem collectAnswers_mem_answer :
    ∀ (fuel : Nat) (rest : List String) (i : Nat) (qt : Option String)
      (as : List Answer) (qtf : Option String) (r : Nat),
      collectAnswers fuel rest i qt = .ok (as, qtf, r) → as ≠ [] →
      ∃ l ∈ rest, isAnswerLine l = true := by
  intro fuel
  induction fuel with
  | zero =>
    intro rest i qt as qtf r h hne
    cases rest with
    | nil => simp [collectAnswers] at h; simp [h.1] at hne
    | cons l ls => simp [collectAnswers] at h; simp [h.1] at hne
  | succ fuel ih =>
    intro rest i qt as qtf r h hne
    cases rest with
    | nil => simp [collectAnswers] at h; simp [h.1] at hne
    | cons line ls =>
      simp only [collectAnswers] at h
      by_cases hr : isReasonMarker line
      · rw [if_pos hr] at h
        simp only [Except.ok.injEq, Prod.mk.injEq] at h
        simp [h.1] at hne
      · rw [if_neg hr] at h
        cases hm : matchAnswerAny line with
        | none =>
          rw [hm] at h
          obtain ⟨l, hl, ha⟩ := ih ls (i + 1) qt as qtf r h hne
          exact ⟨l, by simp [hl], ha⟩
        | some v =>
          obtain ⟨f, t, atype⟩ := v
          exact ⟨line, by simp, (matchAnswerAny_some line f t atype hm).2⟩

/-- An established question type survives the rest of the loop. -/
theorem collectAnswers_qt_fixed :
    ∀ (fuel : Nat) (rest : List String) (i : Nat) (t : String)
      (as : List Answer) (qtf : Option String) (r : Nat),
      collectAnswers fuel rest i (some t) = .ok (as, qtf, r) → qtf = some t := by
  intro fuel
  induction fuel with
  | zero =>
    intro rest i t as qtf r h
    cases rest with
    | nil => simp [collectAnswers] at h; exact h.2.1.symm
    | cons l ls => simp [collectAnswers] at h; exact h.2.1.symm
  | succ fuel ih =>
    intro rest i t as qtf r h
    cases rest with
    | nil => simp [collectAnswers] at h; exact h.2.1.symm
    | cons line ls =>
      simp only [collectAnswers] at h
      by_cases hr : isReasonMarker line
      · rw [if_pos hr] at h
        simp only [Except.ok.injEq, Prod.mk.injEq] at h
        exact h.2.1.symm
      · rw [if_neg hr] at h
        cases hm : matchAnswerAny line with
        | none =>
          rw [hm] at h
          exact ih ls (i + 1) t as qtf r h
        | some v =>
          obtain ⟨f, t0, atype⟩ := v
          rw [hm] at h
          simp only [] at h
          by_cases hc : qtConflict (some t) atype
          · rw [if_pos hc] at h; exact absurd h (by simp)
          · rw [if_neg hc] at h
            have hta : t = atype := by
              unfold qtConflict at hc
              simpa using hc
            cases htc : takeContinuation ls with
            | mk cont rest2 =>
              rw [htc] at h
              simp only at h
              cases hin : collectAnswers fuel rest2 (i + 1 + cont.length)
                  (some ((some t).getD atype)) with
              | error e => rw [hin] at h; exact absurd h (by simp)
              | ok v2 =>
                obtain ⟨as2, qtf2, r2⟩ := v2
                rw [hin] at h
                simp only [Except.ok.injEq, Prod.mk.injEq] at h
                have := ih rest2 (i + 1 + cont.length) t as2 qtf2 r2 (by simpa using hin)
                rw [← h.2.1]
                exact this

/-- When no type is established yet and the loop returns answers, the
resulting question type is the type of the first answer line scanned. -/
theorem collectAnswers_first_type :
    ∀ (fuel : Nat) (rest : List String) (i : Nat)
      (as : List Answer) (qtf : Option String) (r : Nat),
      collectAnswers fuel rest i none = .ok (as, qtf, r) → as ≠ [] →
      ∃ j, rest.findIdx? isAnswerLine = some j ∧
        qtf = some (typeOfLine (rest.getD j "")) := by
  intro fuel
  induction fuel with
  | zero =>
    intro rest i as qtf r h hne
    cases rest with
    | nil => simp [collectAnswers] at h; simp [h.1] at hne
    | cons l ls => simp [collectAnswers] at h; simp [h.1] at hne
  | succ fuel ih =>
    intro rest i as qtf r h hne
    cases rest with
    | nil => simp [collectAnswers] at h; simp [h.1] at hne
    | cons line ls =>
      simp only [collectAnswers] at h
      by_cases hr : isReasonMarker line
      · rw [if_pos hr] at h
        simp only [Except.ok.injEq, Prod.mk.injEq] at h
        simp [h.1] at hne
      · rw [if_neg hr] at h
        cases hm : matchAnswerAny line with
        | none =>
          rw [hm] at h
          obtain ⟨j, hj, hq⟩ := ih ls (i + 1) as qtf r h hne
          have hline : isAnswerLine line = false := (matchAnswerAny_eq_none_iff line).1 hm
          refine ⟨j + 1, ?_, ?_⟩
          · rw [List.findIdx?_cons, hline]
            simp only [Bool.false_eq_true, if_false, List.findIdx?_succ, hj]
            rfl
          · simpa using hq
        | some v =>
          obtain ⟨f, t0, atype⟩ := v
          rw [hm] at h
          simp only [] at h
          have hsome := matchAnswerAny_some line f t0 atype hm
          rw [show qtConflict none atype = false from rfl] at h
          rw [if_neg (by simp)] at h
          cases hin : collectAnswers fuel (takeContinuation ls).2
              (i + 1 + (takeContinuation ls).1.length) (some (Option.getD none atype)) with
          | error e => rw [hin] at h; exact absurd h (by simp)
          | ok v2 =>
            obtain ⟨as2, qtf2, r2⟩ := v2
            rw [hin] at h
            simp only [Except.ok.injEq, Prod.mk.injEq] at h
            have hfix := collectAnswers_qt_fixed fuel (takeContinuation ls).2
              (i + 1 + (takeContinuation ls).1.length) atype as2 qtf2 r2 (by simpa using hin)
            refine ⟨0, ?_, ?_⟩
            · rw [List.findIdx?_cons, hsome.2]; rfl
            · rw [← h.2.1, hfix]
              simp only [List.getD_cons_zero]
              rw [hsome.1]

/-- Unfolding equation for `firstMismatch` on a cons cell. -/
theorem firstMismatch_cons (t l : String) (ls : List String) :
    firstMismatch t (l :: ls) =
      if isReasonMarker l then none
      else if isAnswerLine l && typeOfLine l != t then some 0
      else (firstMismatch t ls).map (· + 1) := rfl

/-- `firstMismatch` ignores a prefix of lines that neither match nor stop
the scan. -/
theorem firstMismatch_append_skip (t : String) :
    ∀ (cont xs : List String),
      (∀ l ∈ cont, isAnswerLine l = false ∧ isReasonMarker l = false) →
      firstMismatch t (cont ++ xs) = (firstMismatch t xs).map (· + cont.length) := by
  intro cont
  induction cont with
  | nil =>
    intro xs _
    simp only [List.nil_append, List.length_nil]
    cases firstMismatch t xs <;> simp
  | cons l cs ih =>
    intro xs h
    obtain ⟨ha, hrm⟩ := h l (by simp)
    rw [List.cons_append, firstMismatch_cons]
    rw [if_neg (by simp [hrm]), if_neg (by simp [ha])]
    rw [ih xs (fun l hl => h l (by simp [hl]))]
    cases firstMismatch t xs with
    | none => simp
    | some j =>
      simp [Function.comp]
      omega

/-- With an established type `t`, the loop fails with the
mixed-answer-types error exactly at the first differing answer line
occurring before the reason marker. -/
theorem collectAnswers_mixed :
    ∀ (fuel : Nat) (rest : List String) (i : Nat) (t : String) (j : Nat),
      rest.length ≤ fuel → firstMismatch t rest = some j →
      collectAnswers fuel rest i (some t) =
        .error ⟨i + j, rest.getD j "", mixedTypesMsg⟩ := by
  intro fuel
  induction fuel with
  | zero =>
    intro rest i t j hf hj
    rw [List.length_eq_zero.1 (Nat.le_zero.1 hf)] at hj
    simp [firstMismatch] at hj
  | succ fuel ih =>
    intro rest i t j hf hj
    cases rest with
    | nil => simp [firstMismatch] at hj
    | cons line ls =>
      have hlen : ls.length ≤ fuel := by
        simp only [List.length_cons] at hf
        omega
      rw [firstMismatch_cons] at hj
      simp only [collectAnswers]
      by_cases hr : isReasonMarker line
      · rw [if_pos hr] at hj; exact absurd hj (by simp)
      · rw [if_neg hr] at hj
        rw [if_neg hr]
        by_cases hmm : isAnswerLine line && typeOfLine line != t
        · rw [if_pos hmm] at hj
          have hj0 : j = 0 := by simpa using hj.symm
          subst hj0
          have hline : isAnswerLine line = true := (Bool.and_eq_true_iff.1 hmm).1
          obtain ⟨f, t0, hany⟩ := matchAnswerAny_of_isAnswerLine hline
          rw [hany]
          simp only []
          have hconf : qtConflict (some t) (typeOfLine line) = true := by
            unfold qtConflict
            have := bne_iff_ne.1 (Bool.and_eq_true_iff.1 hmm).2
            exact bne_iff_ne.2 (fun hx => this hx.symm)
          rw [if_pos hconf]
          simp
        · rw [if_neg hmm] at hj
          obtain ⟨j', hj', rfl⟩ := Option.map_eq_some'.1 hj
          cases hm : matchAnswerAny line with
          | none =>
            simp only []
            rw [ih ls (i + 1) t j' hlen hj']
            have h1 : i + 1 + j' = i + (j' + 1) := by omega
            have h2 : (line :: ls).getD (j' + 1) "" = ls.getD j' "" := by simp
            rw [h1, h2]
          | some v =>
            obtain ⟨f, t0, atype⟩ := v
            simp only []
            have hsome := matchAnswerAny_some line f t0 atype hm
            have htt : typeOfLine line = t := by
              by_contra hne
              rw [Bool.and_eq_true_iff] at hmm
              push_neg at hmm
              have := hmm hsome.2
              exact absurd (bne_iff_ne.2 hne) (by simpa using this)
            have hconf : qtConflict (some t) atype = false := by
              unfold qtConflict
              rw [hsome.1, htt]
              simp
            rw [if_neg (by simp [hconf])]
            have hsplit := takeContinuation_append ls
            have hskip : firstMismatch t ls
                = (firstMismatch t (takeContinuation ls).2).map
                  (· + (takeContinuation ls).1.length) := by
              conv_lhs => rw [← hsplit]
              exact firstMismatch_append_skip t _ _ (takeContinuation_not_stop ls)
            rw [hskip] at hj'
            obtain ⟨j2, hj2, hj2e⟩ := Option.map_eq_some'.1 hj'
            have hj2e' : j2 + (takeContinuation ls).1.length = j' := hj2e
            have hlen2 : (takeContinuation ls).2.length ≤ fuel := by
              have h1 := takeContinuation_length ls
              omega
            rw [show Option.getD (some t) atype = t from rfl]
            rw [ih (takeContinuation ls).2 (i + 1 + (takeContinuation ls).1.length) t j2
              hlen2 hj2]
            have h1 : i + 1 + (takeContinuation ls).1.length + j2 = i + (j' + 1) := by
              omega
            have h2 : (line :: ls).getD (j' + 1) "" = (takeContinuation ls).2.getD j2 "" := by
              have hgd : (line :: ls).getD (j' + 1) "" = ls.getD j' "" := by simp
              have hls : ls.getD j' ""
                  = ((takeContinuation ls).1 ++ (takeContinuation ls).2).getD j' "" := by
                rw [hsplit]
              rw [hgd, hls, List.getD_append_right _ _ _ _ (by omega)]
              congr 1
              omega
            rw [h1, h2]

/-! ### Block-level lemmas -/

/-- With the first answer line at index `k`, the suffix from `k` has its
first answer line at relative index 0. -/
theorem drop_findIdx_zero (lines : List String) (k : Nat)
    (hfi : lines.findIdx? isAnswerLine = some k) :
    (lines.drop k).findIdx? isAnswerLine = some 0 := by
  obtain ⟨hlt, hp, _⟩ := findIdx?_spec isAnswerLine "" lines k hfi
  have hdrop : lines.drop k = lines.getD k "" :: lines.drop (k + 1) := by
    rw [List.getD_eq_getElem?_getD, List.getElem?_eq_getElem hlt]
    exact List.drop_eq_getElem_cons hlt
  rw [hdrop, List.findIdx?_cons, hp]
  rfl

/-- Structural invariants of a successfully parsed block: nonempty
answers, a correct answer, nonempty question text, and a question type
read off the first answer line's marker shape. -/
theorem parseQuestionBlock_ok_inv (block : String) (q : Question)
    (h : parseQuestionBlock block = .ok q) :
    q.answers ≠ [] ∧ (∃ a ∈ q.answers, a.is_correct = true) ∧ q.text ≠ "" ∧
    ∃ k, (pyLines block).findIdx? isAnswerLine = some k ∧
      q.question_type = typeOfLine ((pyLines block).getD k "") := by
  simp only [parseQuestionBlock] at h
  by_cases hq : questionTextOf (pyLines block) = ""
  · rw [if_pos hq] at h; exact absurd h (by simp)
  · rw [if_neg hq] at h
    cases hc : collectAnswersOf block with
    | error e => rw [hc] at h; exact absurd h (by simp)
    | ok v =>
      obtain ⟨as, qt, ridx⟩ := v
      rw [hc] at h
      simp only [] at h
      by_cases hemp : as.isEmpty
      · rw [if_pos hemp] at h; exact absurd h (by simp)
      · rw [if_neg hemp] at h
        have hne : as ≠ [] := by
          intro hx; rw [hx] at hemp; exact hemp rfl
        have hcall : collectAnswers (pyLines block).length
            ((pyLines block).drop (answerStartOf (pyLines block)))
            (answerStartOf (pyLines block)) none = .ok (as, qt, ridx) := hc
        obtain ⟨l0, hl0mem, hl0⟩ := collectAnswers_mem_answer _ _ _ _ _ _ _ hcall hne
        cases hfi : (pyLines block).findIdx? isAnswerLine with
        | none =>
          have := findIdx?_none_forall isAnswerLine (pyLines block) hfi l0
            (List.mem_of_mem_drop hl0mem)
          rw [hl0] at this
          exact absurd this (by simp)
        | some k =>
          have hast : answerStartOf (pyLines block) = k := by
            unfold answerStartOf; rw [hfi]; rfl
          rw [hast] at hcall
          obtain ⟨j, hj, hqt⟩ := collectAnswers_first_type _ _ _ _ _ _ hcall hne
          have hj0 : j = 0 := by
            rw [drop_findIdx_zero (pyLines block) k hfi] at hj
            simpa using hj.symm
          subst hj0
          have hqt' : qt = some (typeOfLine ((pyLines block).getD k "")) := by
            rw [hqt]
            congr 2
            simp [List.getD_eq_getElem?_getD, List.getElem?_drop]
          by_cases hall : as.all (fun a => !a.is_correct)
          · rw [if_pos hall] at h
            have hfa : firstAnswerFrom (pyLines block) (answerStartOf (pyLines block))
                = some k := by
              unfold firstAnswerFrom
              rw [hast, drop_findIdx_zero (pyLines block) k hfi]
              rfl
            rw [hfa] at h
            exact absurd h (by simp)
          · rw [if_neg hall] at h
            have hbq : buildQuestion (questionTextOf (pyLines block)) as qt ridx
                (pyLines block) = q := by simpa using h
            subst hbq
            refine ⟨hne, ?_, hq, ⟨k, rfl, ?_⟩⟩
            · have hex : ∃ x ∈ as, x.is_correct = true := by simpa using hall
              exact hex
            · simp only [buildQuestion, hqt']
              rfl

/-- Mixed-shape detection at the block level: if the block has question
text, its first answer line is at index `k`, and the first
differing-shape answer line before the reason marker sits `j + 1` lines
later, the block fails with the mixed-answer-types error at that line. -/
theorem parseQuestionBlock_mixed (block : String) (k j : Nat)
    (hq : questionTextOf (pyLines block) ≠ "")
    (hk : (pyLines block).findIdx? isAnswerLine = some k)
    (hj : firstMismatch (typeOfLine ((pyLines block).getD k ""))
        ((pyLines block).drop (k + 1)) = some j) :
    parseQuestionBlock block =
      .error ⟨k + 1 + j, (pyLines block).getD (k + 1 + j) "", mixedTypesMsg⟩ := by
  have hcoll : collectAnswersOf block =
      .error ⟨k + 1 + j, (pyLines block).getD (k + 1 + j) "", mixedTypesMsg⟩ := by
    rw [show collectAnswersOf block
      = collectAnswers (pyLines block).length
        ((pyLines block).drop (answerStartOf (pyLines block)))
        (answerStartOf (pyLines block)) none from rfl]
    have hast : answerStartOf (pyLines block) = k := by
      unfold answerStartOf; rw [hk]; rfl
    rw [hast]
    obtain ⟨hlt, hp, _⟩ := findIdx?_spec isAnswerLine "" (pyLines block) k hk
    have hdrop : (pyLines block).drop k
        = (pyLines block).getD k "" :: (pyLines block).drop (k + 1) := by
      rw [List.getD_eq_getElem?_getD, List.getElem?_eq_getElem hlt]
      exact List.drop_eq_getElem_cons hlt
    obtain ⟨m, hm⟩ : ∃ m, (pyLines block).length = m + 1 := ⟨(pyLines block).length - 1, by omega⟩
    rw [hdrop, hm]
    set head := (pyLines block).getD k "" with hhead
    set tail := (pyLines block).drop (k + 1) with htail
    simp only [collectAnswers]
    rw [if_neg (by simp [isAnswerLine_not_reason hp])]
    obtain ⟨f, t0, hany⟩ := matchAnswerAny_of_isAnswerLine hp
    rw [hany]
    simp only []
    rw [if_neg (by simp [qtConflict])]
    have hsplit := takeContinuation_append tail
    have hskip : firstMismatch (typeOfLine head) tail
        = (firstMismatch (typeOfLine head) (takeContinuation tail).2).map
          (· + (takeContinuation tail).1.length) := by
      conv_lhs => rw [← hsplit]
      exact firstMismatch_append_skip _ _ _ (takeContinuation_not_stop tail)
    rw [hskip] at hj
    obtain ⟨j2, hj2, hj2e⟩ := Option.map_eq_some'.1 hj
    have hj2e' : j2 + (takeContinuation tail).1.length = j := hj2e
    have hlen2 : (takeContinuation tail).2.length ≤ m := by
      have h1 := takeContinuation_length tail
      have h2 : tail.length = (pyLines block).length - (k + 1) := by
        rw [htail]; simp
      omega
    rw [show Option.getD none (typeOfLine head) = typeOfLine head from rfl]
    rw [collectAnswers_mixed m (takeContinuation tail).2
      (k + 1 + (takeContinuation tail).1.length) (typeOfLine head) j2 hlen2 hj2]
    have h1 : k + 1 + (takeContinuation tail).1.length + j2 = k + 1 + j := by omega
    have h2 : (takeContinuation tail).2.getD j2 "" = (pyLines block).getD (k + 1 + j) "" := by
      have hls : tail.getD j "" = (pyLines block).getD (k + 1 + j) "" := by
        rw [htail, List.getD_eq_getElem?_getD, List.getElem?_drop,
          List.getD_eq_getElem?_getD]
      rw [← hls]
      have htl : tail.getD j ""
          = ((takeContinuation tail).1 ++ (takeContinuation tail).2).getD j "" := by
        rw [hsplit]
      rw [htl, List.getD_append_right _ _ _ _ (by omega)]
      congr 1
      omega
    rw [h1, h2]
  simp only [parseQuestionBlock]
  rw [if_neg hq, hcoll]

/-- No-correct-answer detection at the block level: if answer collection
succeeds with a nonempty list in which nothing is marked correct, the
block fails with the no-correct-answer error at the first answer line. -/
theorem parseQuestionBlock_no_correct (block : String) (as : List Answer)
    (qt : Option String) (ridx : Nat)
    (hq : questionTextOf (pyLines block) ≠ "")
    (hc : collectAnswersOf block = .ok (as, qt, ridx))
    (hne : as ≠ [])
    (hnc : ∀ a ∈ as, a.is_correct = false) :
    ∃ k, (pyLines block).findIdx? isAnswerLine = some k ∧
      parseQuestionBlock block = .error ⟨k, (pyLines block).getD k "", noCorrectMsg⟩ := by
  obtain ⟨l0, hl0mem, hl0⟩ := collectAnswers_mem_answer _ _ _ _ _ _ _ hc hne
  cases hfi : (pyLines block).findIdx? isAnswerLine with
  | none =>
    have := findIdx?_none_forall isAnswerLine (pyLines block) hfi l0
      (List.mem_of_mem_drop hl0mem)
    rw [hl0] at this
    exact absurd this (by simp)
  | some k =>
    refine ⟨k, rfl, ?_⟩
    simp only [parseQuestionBlock]
    rw [if_neg hq, hc]
    simp only []
    rw [if_neg (by simp [hne])]
    rw [if_pos (by
      rw [List.all_eq_true]
      intro a ha
      simp [hnc a ha])]
    have hfa : firstAnswerFrom (pyLines block) (answerStartOf (pyLines block)) = some k := by
      unfold firstAnswerFrom
      have hast : answerStartOf (pyLines block) = k := by
        unfold answerStartOf; rw [hfi]; rfl
      rw [hast, drop_findIdx_zero (pyLines block) k hfi]
      rfl
    rw [hfa]

/-! ### Driver-loop lemmas -/

/-- Every question produced by the block loop comes from some block of the
list, parsed after stripping. -/
theorem parseLoop_ok_mem :
    ∀ (blocks : List String) (i n cur : Nat) (qs : List Question),
      parseLoop blocks i n cur = .ok qs →
      ∀ q ∈ qs, ∃ b ∈ blocks, parseQuestionBlock (pyStrip b) = .ok q := by
  intro blocks
  induction blocks with
  | nil =>
    intro i n cur qs h q hq
    simp only [parseLoop] at h
    obtain rfl : ([] : List Question) = qs := by simpa using h
    simp at hq
  | cons b rest ih =>
    intro i n cur qs h q hq
    simp only [parseLoop] at h
    by_cases hb : pyStrip b = ""
    · rw [if_pos hb] at h
      obtain ⟨b', hb', hqb⟩ := ih _ _ _ _ h q hq
      exact ⟨b', by simp [hb'], hqb⟩
    · rw [if_neg hb] at h
      cases hpb : parseQuestionBlock (pyStrip b) with
      | error f => rw [hpb] at h; exact absurd h (by simp)
      | ok q0 =>
        rw [hpb] at h
        simp only [] at h
        cases hrec : parseLoop rest (i + 1) n (cur + blockLineCount b i n) with
        | error e => rw [hrec] at h; exact absurd h (by simp)
        | ok qs' =>
          rw [hrec] at h
          simp only [Except.ok.injEq] at h
          subst h
          rcases List.mem_cons.1 hq with rfl | hmem
          · exact ⟨b, by simp, hpb⟩
          · obtain ⟨b', hb', hqb⟩ := ih _ _ _ _ hrec q hmem
            exact ⟨b', by simp [hb'], hqb⟩

/-- The empty block fails the question-text check immediately. -/
theorem parseQuestionBlock_empty : parseQuestionBlock "" = .error ⟨0, "", noQuestionTextMsg⟩ :=
  rfl

/-- The questions returned by the block loop are exactly the successful
block parses, in block order: the loop's output is the in-order
`filterMap` of the block list. -/
theorem parseLoop_ok_filterMap :
    ∀ (blocks : List String) (i n cur : Nat) (qs : List Question),
      parseLoop blocks i n cur = .ok qs →
      qs = blocks.filterMap (fun b =>
        match parseQuestionBlock (pyStrip b) with
        | .ok q => some q
        | .error _ => none) := by
  intro blocks
  induction blocks with
  | nil =>
    intro i n cur qs h
    simp only [parseLoop, Except.ok.injEq] at h
    rw [← h]
    rfl
  | cons b rest ih =>
    intro i n cur qs h
    simp only [parseLoop] at h
    by_cases hb : pyStrip b = ""
    · rw [if_pos hb] at h
      simp only [List.filterMap_cons, hb, parseQuestionBlock_empty]
      exact ih _ _ _ _ h
    · rw [if_neg hb] at h
      cases hpb : parseQuestionBlock (pyStrip b) with
      | error f => rw [hpb] at h; exact absurd h (by simp)
      | ok q =>
        rw [hpb] at h
        simp only [] at h
        cases hrec : parseLoop rest (i + 1) n (cur + blockLineCount b i n) with
        | error e => rw [hrec] at h; exact absurd h (by simp)
        | ok qs' =>
          rw [hrec] at h
          simp only [Except.ok.injEq] at h
          subst h
          simp only [List.filterMap_cons, hpb]
          rw [ih _ _ _ _ hrec]

/-- A list of blocks that all strip to empty is skipped entirely. -/
theorem parseLoop_all_ws :
    ∀ (blocks : List String) (i n cur : Nat),
      (∀ b ∈ blocks, pyStrip b = "") → parseLoop blocks i n cur = .ok [] := by
  intro blocks
  induction blocks with
  | nil => intro i n cur _; rfl
  | cons b rest ih =>
    intro i n cur h
    simp only [parseLoop]
    rw [if_pos (h b (by simp))]
    exact ih _ _ _ (fun b' hb' => h b' (by simp [hb']))

/-- The diagnostic payload built by `_raise_parse_error`: the line number
is the offset-based sum, and each context window has at most two lines
taken from the block's own line list. -/
theorem mkParseError_props (off idx : Nat) (lc msg : String) (bn : Nat)
    (bl : List String) :
    (mkParseError off idx lc msg bn bl).line_number = off + idx + 1 ∧
    (mkParseError off idx lc msg bn bl).context_before.length ≤ 2 ∧
    (mkParseError off idx lc msg bn bl).context_after.length ≤ 2 ∧
    (mkParseError off idx lc msg bn bl).context_before.IsInfix bl ∧
    (mkParseError off idx lc msg bn bl).context_after.IsInfix bl := by
  refine ⟨rfl, ?_, ?_, ?_, ?_⟩
  · simp only [mkParseError, List.length_drop, List.length_take]
    omega
  · simp only [mkParseError, List.length_take]
    omega
  · exact ((List.drop_suffix _ _).isInfix).trans ((List.take_prefix _ _).isInfix)
  · exact ((List.take_prefix _ _).isInfix).trans ((List.drop_suffix _ _).isInfix)

/-- Every detailed error raised by the block loop comes from the failing
block: that block's parse fails with exactly the payload's line content
and message at in-block index `idx`, the payload's line number is that
block's bookkeeping offset plus `idx` plus one, and the context windows
are exactly the two-line windows around `idx` in that block's own
(stripped) line list. -/
theorem parseLoop_error_detailed :
    ∀ (blocks : List String) (i n cur : Nat) (m : String) (pe : ParseError),
      parseLoop blocks i n cur = .error (.detailed m pe) →
      ∃ b off idx, (b, off) ∈ blocksWithOffsets blocks i n cur ∧ pyStrip b ≠ "" ∧
        parseQuestionBlock (pyStrip b)
          = .error ⟨idx, pe.line_content, pe.error_message⟩ ∧
        pe.line_number = off + idx + 1 ∧
        pe.context_before = ((pyLines (pyStrip b)).take idx).drop (idx - 2) ∧
        pe.context_after = ((pyLines (pyStrip b)).drop (idx + 1)).take 2 ∧
        pe.context_before.length ≤ 2 ∧ pe.context_after.length ≤ 2 ∧
        pe.context_before.IsInfix (pyLines (pyStrip b)) ∧
        pe.context_after.IsInfix (pyLines (pyStrip b)) := by
  intro blocks
  induction blocks with
  | nil =>
    intro i n cur m pe h
    simp [parseLoop] at h
  | cons b rest ih =>
    intro i n cur m pe h
    simp only [parseLoop] at h
    by_cases hb : pyStrip b = ""
    · rw [if_pos hb] at h
      obtain ⟨b', off, idx, hmem, hrest⟩ := ih _ _ _ _ _ h
      exact ⟨b', off, idx, by simp [blocksWithOffsets, hmem], hrest⟩
    · rw [if_neg hb] at h
      cases hpb : parseQuestionBlock (pyStrip b) with
      | error f =>
        rw [hpb] at h
        simp only [Except.error.injEq] at h
        have hpe : pe = mkParseError cur f.lineIdx f.lineContent f.message (i + 1)
            (pyLines (pyStrip b)) := by
          have := h.symm
          unfold raisedQuizError at this
          simp only [QuizParseError.detailed.injEq] at this
          exact this.2
        obtain ⟨h1, h2, h3, h4, h5⟩ := mkParseError_props cur f.lineIdx f.lineContent
          f.message (i + 1) (pyLines (pyStrip b))
        rw [← hpe] at h1 h2 h3 h4 h5
        refine ⟨b, cur, f.lineIdx, by simp [blocksWithOffsets], hb, ?_, h1, ?_, ?_,
          h2, h3, h4, h5⟩
        · rw [hpe]
          exact hpb
        · rw [hpe]
          rfl
        · rw [hpe]
          rfl
      | ok q0 =>
        rw [hpb] at h
        simp only [] at h
        cases hrec : parseLoop rest (i + 1) n (cur + blockLineCount b i n) with
        | error e =>
          rw [hrec] at h
          simp only [Except.error.injEq] at h
          subst h
          obtain ⟨b', off, idx, hmem, hrest⟩ := ih _ _ _ _ _ hrec
          exact ⟨b', off, idx, by simp [blocksWithOffsets, hmem], hrest⟩
        | ok qs' => rw [hrec] at h; exact absurd h (by simp)

/-! ### Stateful parser versus pure parser -/

/-- The result of the stateful block loop is the pure loop's result with
the instance's already-accumulated questions prepended. -/
theorem parseMethodLoop_snd :
    ∀ (blocks : List String) (st : QuizParserState) (i n cur : Nat),
      (parseMethodLoop st blocks i n cur).2 =
        match parseLoop blocks i n cur with
        | .ok qs => .ok (st.questions ++ qs)
        | .error e => .error e := by
  intro blocks
  induction blocks with
  | nil =>
    intro st i n cur
    simp [parseMethodLoop, parseLoop]
  | cons b rest ih =>
    intro st i n cur
    simp only [parseMethodLoop, parseLoop]
    by_cases hb : pyStrip b = ""
    · rw [if_pos hb, if_pos hb]
      exact ih _ _ _ _
    · rw [if_neg hb, if_neg hb]
      cases hpb : parseQuestionBlock (pyStrip b) with
      | error f => simp only []
      | ok q =>
        simp only []
        rw [ih]
        cases hrec : parseLoop rest (i + 1) n (cur + blockLineCount b i n) with
        | error e => simp only []
        | ok qs => simp only [List.append_assoc, List.singleton_append]

/-- `parse_quiz_file` — which constructs a fresh parser object per call —
computes the pure function `parse` of the file content. -/
theorem parse_quiz_file_eq (content : String) : parse_quiz_file content = parse content := by
  unfold parse_quiz_file parseMethod parse
  cases hml : parseMethodLoop { initParserState with all_lines := pyLines content }
      (splitBlocks content) 0 (splitBlocks content).length 0 with
  | mk st1 res =>
    have hres := parseMethodLoop_snd (splitBlocks content)
      { initParserState with all_lines := pyLines content } 0 (splitBlocks content).length 0
    rw [hml] at hres
    simp only [] at hres ⊢
    rw [hml]
    simp only []
    cases hpl : parseLoop (splitBlocks content) 0 (splitBlocks content).length 0 with
    | error e =>
      rw [hpl] at hres
      simp only [] at hres
      rw [hres]
    | ok qs =>
      rw [hpl] at hres
      simp only [] at hres
      rw [hres]
      simp only [initParserState, List.nil_append]
      by_cases hqe : qs.isEmpty <;> simp [hqe]

/-! ### Block-splitter lemmas -/

/-- Character-level join with the three-dash separator (the inverse view
of the splitter, used to state what splitting guarantees). -/
def joinDashes : List (List Char) → List Char
  | [] => []
  | [x] => x
  | x :: xs => x ++ '-' :: '-' :: '-' :: joinDashes xs

/-- Unfolding: the splitter cuts at a leading separator. -/
theorem splitDashesGo_sep (acc rest : List Char) :
    splitDashesGo acc ('-' :: '-' :: '-' :: rest)
      = acc.reverse :: splitDashesGo [] rest := rfl

/-- Unfolding: the splitter emits the accumulator at the end. -/
theorem splitDashesGo_nil (acc : List Char) : splitDashesGo acc [] = [acc.reverse] := rfl

/-- Unfolding: a position not starting the separator is accumulated. -/
theorem splitDashesGo_cons (acc : List Char) (c : Char) (cs : List Char)
    (h : ∀ rest, c :: cs ≠ '-' :: '-' :: '-' :: rest) :
    splitDashesGo acc (c :: cs) = splitDashesGo (c :: acc) cs := by
  rw [splitDashesGo.eq_def]
  split
  next tail heq => exact absurd heq (h tail)
  next c' cs' hne heq =>
    injection heq with h1 h2
    rw [h1, h2]
  next heq => exact absurd heq (by simp)

/-- Repackage the disequality hypothesis produced by functional induction
on the splitter's overlapping patterns. -/
theorem cons3_ne (head : Char) (cs : List Char)
    (hne : ∀ rest, head = '-' → cs = '-' :: '-' :: rest → False) :
    ∀ rest, head :: cs ≠ '-' :: '-' :: '-' :: rest := by
  intro rest hr
  injection hr with h1 h2
  exact hne rest h1 h2

/-- Unfolding: `hasSepDashes` steps over a position not starting the
separator. -/
theorem hasSepDashes_cons (c : Char) (cs : List Char)
    (h : ∀ rest, c :: cs ≠ '-' :: '-' :: '-' :: rest) :
    hasSepDashes (c :: cs) = hasSepDashes cs := by
  rw [hasSepDashes.eq_def]
  split
  next tail heq => exact absurd heq (h tail)
  next c' cs' hne' heq =>
    injection heq with h1 h2
    rw [h2]
  next heq => exact absurd heq (by simp)

/-- The splitter never returns an empty list of pieces. -/
theorem splitDashesGo_ne_nil (acc s : List Char) : splitDashesGo acc s ≠ [] := by
  induction acc, s using splitDashesGo.induct with
  | case1 acc tail ih => rw [splitDashesGo_sep]; simp
  | case2 acc head cs hne ih =>
    rw [splitDashesGo_cons acc head cs (cons3_ne head cs hne)]
    exact ih
  | case3 acc => rw [splitDashesGo_nil]; simp

/-- Joining the split pieces with the separator recovers the input (with
the pending accumulator prepended). -/
theorem joinDashes_splitDashesGo (acc s : List Char) :
    joinDashes (splitDashesGo acc s) = acc.reverse ++ s := by
  induction acc, s using splitDashesGo.induct with
  | case1 acc tail ih =>
    rw [splitDashesGo_sep]
    cases hsp : splitDashesGo [] tail with
    | nil => exact absurd hsp (splitDashesGo_ne_nil [] tail)
    | cons p ps =>
      rw [show joinDashes (acc.reverse :: p :: ps)
        = acc.reverse ++ '-' :: '-' :: '-' :: joinDashes (p :: ps) from rfl]
      rw [← hsp, ih]
      simp
  | case2 acc head cs hne ih =>
    rw [splitDashesGo_cons acc head cs (cons3_ne head cs hne)]
    rw [ih]
    simp
  | case3 acc => rw [splitDashesGo_nil]; simp [joinDashes]

/-- `hasSepDashes` detects exactly the positions where the separator is a
prefix of a suffix. -/
theorem hasSepDashes_iff (l : List Char) :
    hasSepDashes l = true ↔ ∃ j, ['-', '-', '-'] <+: l.drop j := by
  induction l using hasSepDashes.induct with
  | case1 tail =>
    rw [show hasSepDashes ('-' :: '-' :: '-' :: tail) = true from rfl]
    simp only [true_iff]
    exact ⟨0, tail, rfl⟩
  | case2 c cs hne ih =>
    rw [hasSepDashes_cons c cs (cons3_ne c cs hne)]
    rw [ih]
    constructor
    · rintro ⟨j, hj⟩
      exact ⟨j + 1, by simpa using hj⟩
    · rintro ⟨j, hj⟩
      match j with
      | 0 =>
        simp only [List.drop_zero] at hj
        obtain ⟨t, ht⟩ := hj
        exact absurd ht.symm (cons3_ne c cs hne t)
      | j + 1 => exact ⟨j, by simpa using hj⟩
  | case3 =>
    rw [show hasSepDashes [] = false from rfl]
    simp only [Bool.false_eq_true, false_iff]
    rintro ⟨j, hj⟩
    rw [List.drop_nil] at hj
    have := List.prefix_nil.1 hj
    simp at this

/-- If no separator occurrence starts inside the accumulator region, the
accumulator (reversed) contains no separator. -/
theorem acc_rev_no_sep (acc s : List Char)
    (hinv : ∀ j, j < acc.length → ¬ (['-', '-', '-'] <+: (acc.reverse ++ s).drop j)) :
    hasSepDashes acc.reverse = false := by
  by_contra hcon
  have hsep : hasSepDashes acc.reverse = true := by
    cases h : hasSepDashes acc.reverse
    · exact absurd h hcon
    · rfl
  obtain ⟨j, hj⟩ := (hasSepDashes_iff _).1 hsep
  have hlen := List.IsPrefix.length_le hj
  simp only [List.length_drop, List.length_reverse, List.length_cons, List.length_nil] at hlen
  have hj' : j < acc.length := by omega
  apply hinv j hj'
  rw [List.drop_append_of_le_length (by simp; omega)]
  exact hj.trans (List.prefix_append _ _)

/-- No piece produced by the splitter contains the separator (given that
no occurrence starts inside the pending accumulator). -/
theorem splitDashesGo_no_sep :
    ∀ (acc s : List Char),
      (∀ j, j < acc.length → ¬ (['-', '-', '-'] <+: (acc.reverse ++ s).drop j)) →
      ∀ p ∈ splitDashesGo acc s, hasSepDashes p = false := by
  intro acc s
  induction acc, s using splitDashesGo.induct with
  | case1 acc tail ih =>
    intro hinv p hp
    rw [splitDashesGo_sep] at hp
    rcases List.mem_cons.1 hp with rfl | hmem
    · exact acc_rev_no_sep acc _ hinv
    · exact ih (by intro j hj; simp at hj) p hmem
  | case2 acc head cs hne ih =>
    intro hinv p hp
    rw [splitDashesGo_cons acc head cs (cons3_ne head cs hne)] at hp
    refine ih ?_ p hp
    intro j hj
    rw [show (head :: acc).reverse ++ cs = acc.reverse ++ head :: cs from by simp]
    simp only [List.length_cons] at hj
    by_cases hjc : j < acc.length
    · exact hinv j hjc
    · have hj0 : j = acc.length := by omega
      subst hj0
      rw [show (acc.reverse ++ head :: cs).drop acc.length = head :: cs from by
        conv_lhs => rw [show acc.length = acc.reverse.length from by simp]
        exact List.drop_left _ _]
      intro hpre
      obtain ⟨t, ht⟩ := hpre
      exact cons3_ne head cs hne t ht.symm
  | case3 acc =>
    intro hinv p hp
    rw [splitDashesGo_nil] at hp
    rcases List.mem_singleton.1 hp with rfl
    exact acc_rev_no_sep acc [] hinv

/-- Joining mapped pieces at the string level equals the character-level
join. -/
theorem pyJoin_dashes_map : ∀ (L : List (List Char)),
    pyJoin "---" (L.map String.mk) = String.mk (joinDashes L) := by
  intro L
  induction L with
  | nil => rfl
  | cons x L ih =>
    cases L with
    | nil => rfl
    | cons y ys =>
      rw [show (x :: y :: ys).map String.mk
        = String.mk x :: String.mk y :: ys.map String.mk from rfl]
      rw [show pyJoin "---" (String.mk x :: String.mk y :: ys.map String.mk)
        = String.mk x ++ "---" ++ pyJoin "---" (String.mk y :: ys.map String.mk) from rfl]
      rw [show String.mk y :: ys.map String.mk = (y :: ys).map String.mk from rfl, ih]
      rw [show joinDashes (x :: y :: ys) = x ++ '-' :: '-' :: '-' :: joinDashes (y :: ys)
        from rfl]
      rw [show String.mk x ++ "---" ++ String.mk (joinDashes (y :: ys))
        = String.mk ((x ++ ['-', '-', '-']) ++ joinDashes (y :: ys)) from rfl]
      rw [List.append_assoc]
      rfl

/-! ### Anki exporter lemmas -/

/-- The value of one option field: the normalised answer text when the
index is in range, the empty-string padding otherwise. -/
def optField (as : List Answer) (j : Nat) : String :=
  if j < as.length then normalizeText ((as.getD j ⟨"", false⟩).text) else ""

/-- Indexing into the padded option list. -/
theorem padded_getD (as : List Answer) (j : Nat) (hj : j < 5) :
    ((as.map (fun a => normalizeText a.text))
        ++ List.replicate (5 - as.length) "").getD j "" = optField as j := by
  unfold optField
  by_cases hjl : j < as.length
  · rw [List.getD_append _ _ _ _ (by simpa using hjl), if_pos hjl]
    rw [List.getD_eq_getElem?_getD, List.getElem?_map, List.getElem?_eq_getElem
      (by simpa using hjl)]
    rw [List.getD_eq_getElem?_getD, List.getElem?_eq_getElem hjl]
    rfl
  · rw [List.getD_append_right _ _ _ _ (by simp; omega), if_neg hjl]
    rw [List.getD_eq_getElem?_getD, List.getElem?_replicate]
    rw [if_pos (by simp; omega)]
    rfl

/-- The five option fields, expressed through `optField`. -/
theorem formatAnswerOptions_eq (q : Question) :
    formatAnswerOptions q =
      (optField q.answers 0, optField q.answers 1, optField q.answers 2,
       optField q.answers 3, optField q.answers 4) := by
  unfold formatAnswerOptions
  simp only [List.length_map]
  rw [padded_getD q.answers 0 (by omega), padded_getD q.answers 1 (by omega),
    padded_getD q.answers 2 (by omega), padded_getD q.answers 3 (by omega),
    padded_getD q.answers 4 (by omega)]

/-- `optField` sees only the first five answers. -/
theorem optField_take (as : List Answer) (j : Nat) (hj : j < 5) :
    optField (as.take 5) j = optField as j := by
  unfold optField
  by_cases hjl : j < as.length
  · rw [if_pos (by simp; omega), if_pos hjl]
    congr 1
    rw [List.getD_eq_getElem (as.take 5) _ (by simp; omega), List.getD_eq_getElem as _ hjl]
    simp
  · rw [if_neg (by simp; omega), if_neg hjl]

/-- `setCorrectBits` sets exactly the listed in-range correct indices. -/
theorem setCorrectBits_getD (j : Nat) (hj : j < 5) :
    ∀ (l : List (Nat × Answer)) (bits : List String), bits.length = 5 →
      (setCorrectBits bits l).getD j ""
        = if l.any (fun pa => pa.1 == j && pa.2.is_correct) then "1"
          else bits.getD j "" := by
  intro l
  induction l with
  | nil => intro bits _; simp [setCorrectBits]
  | cons pa rest ih =>
    obtain ⟨i, a⟩ := pa
    intro bits hlen
    rw [show setCorrectBits bits ((i, a) :: rest)
      = setCorrectBits (if i < 5 && a.is_correct then bits.set i "1" else bits) rest
      from rfl]
    by_cases hset : i < 5 && a.is_correct
    · rw [if_pos hset]
      rw [ih (bits.set i "1") (by simp [hlen])]
      by_cases hij : i = j
      · subst hij
        have hbit : (bits.set i "1").getD i "" = "1" := by
          rw [List.getD_eq_getElem?_getD, List.getElem?_set]
          simp [hlen, hj]
        rw [hbit]
        have hpa : ((i, a).1 == i && (i, a).2.is_correct) = true := by
          simp only []
          rcases Bool.and_eq_true_iff.1 hset with ⟨_, h2⟩
          simp [h2]
        rw [show ((i, a) :: rest).any (fun pa => pa.1 == i && pa.2.is_correct)
          = (((i, a).1 == i && (i, a).2.is_correct)
            || rest.any (fun pa => pa.1 == i && pa.2.is_correct)) from rfl, hpa]
        simp only [Bool.true_or, if_true]
        by_cases hrest : rest.any (fun pa => pa.1 == i && pa.2.is_correct)
        · rw [if_pos hrest]
        · rw [if_neg hrest]
      · have hbit : (bits.set i "1").getD j "" = bits.getD j "" := by
          rw [List.getD_eq_getElem?_getD, List.getElem?_set, if_neg hij,
            ← List.getD_eq_getElem?_getD]
        rw [hbit]
        have hpa : ((i, a).1 == j && (i, a).2.is_correct) = false := by
          simp [hij]
        rw [show ((i, a) :: rest).any (fun pa => pa.1 == j && pa.2.is_correct)
          = (((i, a).1 == j && (i, a).2.is_correct)
            || rest.any (fun pa => pa.1 == j && pa.2.is_correct)) from rfl, hpa]
        simp only [Bool.false_or]
    · rw [if_neg hset]
      rw [ih bits hlen]
      have hpa : ((i, a).1 == j && (i, a).2.is_correct) = false := by
        by_cases hij : i = j
        · subst hij
          have : ¬ (i < 5 && a.is_correct) = true := hset
          simp only [Bool.and_eq_true, decide_eq_true_eq, not_and] at this
          have hcor : a.is_correct = false := by
            cases hc : a.is_correct
            · rfl
            · exact absurd hc (by intro hx; exact this (by omega) hx)
          simp [hcor]
        · simp [hij]
      rw [show ((i, a) :: rest).any (fun pa => pa.1 == j && pa.2.is_correct)
        = (((i, a).1 == j && (i, a).2.is_correct)
          || rest.any (fun pa => pa.1 == j && pa.2.is_correct)) from rfl, hpa]
      simp only [Bool.false_or]

/-- `setCorrectBits` preserves the bit-list length. -/
theorem setCorrectBits_length :
    ∀ (l : List (Nat × Answer)) (bits : List String),
      (setCorrectBits bits l).length = bits.length := by
  intro l
  induction l with
  | nil => intro bits; rfl
  | cons pa rest ih =>
    obtain ⟨i, a⟩ := pa
    intro bits
    rw [show setCorrectBits bits ((i, a) :: rest)
      = setCorrectBits (if i < 5 && a.is_correct then bits.set i "1" else bits) rest
      from rfl]
    rw [ih]
    by_cases hset : i < 5 && a.is_correct
    · rw [if_pos hset]; simp
    · rw [if_neg hset]

/-- The bit list always has exactly five entries. -/
theorem binaryBits_length (q : Question) : (binaryBits q).length = 5 := by
  unfold binaryBits
  rw [setCorrectBits_length]
  simp

/-- Bit `j` is `"1"` exactly when answer `j` exists and is marked
correct. -/
theorem binaryBits_getD (q : Question) (j : Nat) (hj : j < 5) :
    (binaryBits q).getD j ""
      = if j < q.answers.length ∧ (q.answers.getD j ⟨"", false⟩).is_correct = true
        then "1" else "0" := by
  unfold binaryBits
  rw [setCorrectBits_getD j hj q.answers.enum (List.replicate 5 "0") (by simp)]
  have hrep : (List.replicate 5 "0").getD j "" = "0" := by
    rw [List.getD_eq_getElem?_getD, List.getElem?_replicate, if_pos hj]
    rfl
  rw [hrep]
  by_cases hcond : j < q.answers.length ∧ (q.answers.getD j ⟨"", false⟩).is_correct = true
  · have hany : (q.answers.enum.any (fun pa => pa.1 == j && pa.2.is_correct)) = true := by
      rw [List.any_eq_true]
      refine ⟨(j, q.answers.getD j ⟨"", false⟩), ?_, ?_⟩
      · rw [List.mem_enum_iff_getElem?]
        show q.answers[j]? = some (q.answers.getD j ⟨"", false⟩)
        rw [List.getD_eq_getElem q.answers _ hcond.1]
        exact List.getElem?_eq_getElem hcond.1
      · show ((j == j) && (q.answers.getD j ⟨"", false⟩).is_correct) = true
        rw [show (j == j) = true from by simp, Bool.true_and]
        exact hcond.2
    rw [if_pos hany, if_pos hcond]
  · have hnot : ¬ (q.answers.enum.any (fun pa => pa.1 == j && pa.2.is_correct) = true) := by
      rw [List.any_eq_true]
      rintro ⟨⟨i, a⟩, hmem, hp⟩
      rw [List.mem_enum_iff_getElem?] at hmem
      simp only [Bool.and_eq_true, beq_iff_eq] at hp
      obtain ⟨rfl, hcor⟩ := hp
      apply hcond
      have hilt : i < q.answers.length := by
        by_contra hge
        rw [List.getElem?_eq_none (by omega)] at hmem
        exact absurd hmem (by simp)
      have hgetElem := List.getElem?_eq_getElem hilt
      rw [hgetElem] at hmem
      injection hmem with hmem'
      have hEq : q.answers[i] = a := hmem'
      refine ⟨hilt, ?_⟩
      rw [List.getD_eq_getElem q.answers _ hilt, hEq]
      exact hcor
    rw [if_neg hnot, if_neg hcond]

/-- The bit list only depends on the first five answers. -/
theorem binaryBits_take (q : Question) :
    binaryBits ⟨q.text, q.answers.take 5, q.reason, q.question_type⟩ = binaryBits q := by
  apply List.ext_getElem (by rw [binaryBits_length, binaryBits_length])
  intro n h1 h2
  have hn : n < 5 := by rw [binaryBits_length] at h1; exact h1
  have e1 := binaryBits_getD ⟨q.text, q.answers.take 5, q.reason, q.question_type⟩ n hn
  have e2 := binaryBits_getD q n hn
  simp only [] at e1
  rw [List.getD_eq_getElem _ _ h1] at e1
  rw [List.getD_eq_getElem _ _ h2] at e2
  rw [e1, e2]
  by_cases hni : n < q.answers.length
  · have htl : n < (q.answers.take 5).length := by simp only [List.length_take]; omega
    have hgd : (q.answers.take 5).getD n ⟨"", false⟩ = q.answers.getD n ⟨"", false⟩ := by
      rw [List.getD_eq_getElem _ ⟨"", false⟩ htl, List.getD_eq_getElem _ ⟨"", false⟩ hni]
      simp
    rw [hgd]
    by_cases hcor : (q.answers.getD n ⟨"", false⟩).is_correct = true
    · rw [if_pos ⟨htl, hcor⟩, if_pos ⟨hni, hcor⟩]
    · rw [if_neg (fun hx => hcor hx.2), if_neg (fun hx => hcor hx.2)]
  · have htl : ¬ n < (q.answers.take 5).length := by simp only [List.length_take]; omega
    rw [if_neg (fun hx => htl hx.1), if_neg (fun hx => hni hx.1)]

/-- The option fields only depend on the first five answers. -/
theorem formatAnswerOptions_take (q : Question) :
    formatAnswerOptions ⟨q.text, q.answers.take 5, q.reason, q.question_type⟩
      = formatAnswerOptions q := by
  have e1 := formatAnswerOptions_eq ⟨q.text, q.answers.take 5, q.reason, q.question_type⟩
  have e2 := formatAnswerOptions_eq q
  simp only [] at e1
  rw [e1, e2]
  rw [optField_take q.answers 0 (by omega), optField_take q.answers 1 (by omega),
    optField_take q.answers 2 (by omega), optField_take q.answers 3 (by omega),
    optField_take q.answers 4 (by omega)]

/-! ### Shape of the answer-line pattern -/

/-- A successful pattern match decomposes the line as a column-zero dash,
a nonempty whitespace run, and then the marker bracket. -/
theorem matchAnswer_shape {op cl : Char} {l : String} {v : Char × String}
    (h : matchAnswer op cl l = some v) :
    ∃ ws mid, l.toList = '-' :: (ws ++ mid) ∧ ws ≠ [] ∧
      (∀ c ∈ ws, isPySpace c = true) ∧ mid.head? = some op := by
  unfold matchAnswer at h
  split at h
  next c0 cs heq =>
    by_cases hc0 : c0 = '-'
    · rw [if_pos hc0] at h
      by_cases htw : cs.takeWhile isPySpace = []
      · rw [if_pos htw] at h; exact absurd h (by simp)
      · rw [if_neg htw] at h
        split at h
        next o f c rest2 heq2 =>
          by_cases hcond : o = op ∧ c = cl ∧ (f = 'X' ∨ f = 'x' ∨ f = ' ')
          · refine ⟨cs.takeWhile isPySpace, cs.dropWhile isPySpace, ?_, htw, ?_, ?_⟩
            · rw [heq, hc0, List.takeWhile_append_dropWhile]
            · intro c hc; exact List.mem_takeWhile_imp hc
            · rw [heq2, hcond.1]; rfl
          · rw [if_neg hcond] at h; exact absurd h (by simp)
        next heq2 => exact absurd h (by simp)
    · rw [if_neg hc0] at h; exact absurd h (by simp)
  next heq => exact absurd h (by simp)

/-- A line whose first character is not a dash never matches. -/
theorem matchAnswer_not_dash (op cl : Char) (c : Char) (cs : List Char) (hc : c ≠ '-') :
    matchAnswer op cl (String.mk (c :: cs)) = none := by
  unfold matchAnswer
  rw [show (String.mk (c :: cs)).toList = c :: cs from rfl]
  simp only []
  rw [if_neg hc]

/-- A dash not followed by whitespace never matches. -/
theorem matchAnswer_no_space (op cl : Char) (c : Char) (cs : List Char)
    (hc : isPySpace c = false) :
    matchAnswer op cl (String.mk ('-' :: c :: cs)) = none := by
  unfold matchAnswer
  rw [show (String.mk ('-' :: c :: cs)).toList = '-' :: c :: cs from rfl]
  simp only []
  rw [if_pos trivial]
  rw [List.takeWhile_cons, hc]
  simp only [Bool.false_eq_true, if_false]
  rw [if_pos trivial]

/-! ### Claim theorems -/

/-- C1: whenever `parse` succeeds, the returned question list is nonempty
and is exactly the in-order sequence of successful block parses — file
order — and every question has nonempty answers, at least one correct
answer, nonempty question text, and a `question_type` of `"single"` or
`"multiple"` determined by the marker shape of its block's first answer
line. -/
theorem claim_C1_parse_ok_invariants (content : String) (qs : List Question)
    (h : parse content = .ok qs) :
    qs ≠ [] ∧
    qs = (splitBlocks content).filterMap (fun b =>
      match parseQuestionBlock (pyStrip b) with
      | .ok q => some q
      | .error _ => none) ∧
    ∀ q ∈ qs,
      q.answers ≠ [] ∧ (∃ a ∈ q.answers, a.is_correct = true) ∧ q.text ≠ "" ∧
      (q.question_type = "single" ∨ q.question_type = "multiple") ∧
      ∃ b ∈ splitBlocks content, ∃ k, parseQuestionBlock (pyStrip b) = .ok q ∧
        (pyLines (pyStrip b)).findIdx? isAnswerLine = some k ∧
        q.question_type = typeOfLine ((pyLines (pyStrip b)).getD k "") := by
  unfold parse at h
  simp only [] at h
  cases hpl : parseLoop (splitBlocks content) 0 (splitBlocks content).length 0 with
  | error e => rw [hpl] at h; exact absurd h (by simp)
  | ok qs0 =>
    rw [hpl] at h
    simp only [] at h
    by_cases hemp : qs0.isEmpty
    · rw [if_pos hemp] at h; exact absurd h (by simp)
    · rw [if_neg hemp] at h
      simp only [Except.ok.injEq] at h
      subst h
      refine ⟨by intro hx; rw [hx] at hemp; exact hemp rfl,
        parseLoop_ok_filterMap _ _ _ _ _ hpl, ?_⟩
      intro q hq
      obtain ⟨b, hb, hqb⟩ := parseLoop_ok_mem _ _ _ _ _ hpl q hq
      obtain ⟨h1, h2, h3, k, hk, hty⟩ := parseQuestionBlock_ok_inv _ _ hqb
      refine ⟨h1, h2, h3, ?_, b, hb, k, hqb, hk, hty⟩
      rw [hty]
      unfold typeOfLine
      by_cases hm : (matchSingle ((pyLines (pyStrip b)).getD k "")).isSome
      · left; rw [if_pos hm]
      · right; rw [if_neg hm]

/-- C1 witness. -/
theorem claim_C1_witness :
    ([⟨"Q", [⟨"a", true⟩], "", "single"⟩] : List Question) ≠ [] ∧
    ([⟨"Q", [⟨"a", true⟩], "", "single"⟩] : List Question)
      = (splitBlocks "Q\n- (X) a").filterMap (fun b =>
        match parseQuestionBlock (pyStrip b) with
        | .ok q => some q
        | .error _ => none) ∧
    ∀ q ∈ ([⟨"Q", [⟨"a", true⟩], "", "single"⟩] : List Question),
      q.answers ≠ [] ∧ (∃ a ∈ q.answers, a.is_correct = true) ∧ q.text ≠ "" ∧
      (q.question_type = "single" ∨ q.question_type = "multiple") ∧
      ∃ b ∈ splitBlocks "Q\n- (X) a", ∃ k, parseQuestionBlock (pyStrip b) = .ok q ∧
        (pyLines (pyStrip b)).findIdx? isAnswerLine = some k ∧
        q.question_type = typeOfLine ((pyLines (pyStrip b)).getD k "") :=
  claim_C1_parse_ok_invariants "Q\n- (X) a" [⟨"Q", [⟨"a", true⟩], "", "single"⟩] (by rfl)

/-- C2 counterexample: the splitter cuts at an embedded `---` even though
no line of the input consists of the separator alone. -/
theorem claim_C2_counterexample :
    splitBlocks "a---b" = ["a", "b"] ∧ (∀ l ∈ pyLines "a---b", l ≠ "---") ∧
    splitBlocks "a---b" ≠ ["a---b"] := by
  refine ⟨by rfl, by decide, by decide⟩

/-- C2 (amended): the splitter cuts at every occurrence of the substring
`---` — on its own line or embedded — so the produced blocks contain no
occurrence of the separator, and joining them with `---` restores the
file text. -/
theorem claim_C2_split_at_every_occurrence (content : String) :
    pyJoin "---" (splitBlocks content) = content ∧
    ∀ b ∈ splitBlocks content, hasSepDashes b.toList = false := by
  constructor
  · unfold splitBlocks
    rw [pyJoin_dashes_map, joinDashes_splitDashesGo]
    rfl
  · intro b hb
    unfold splitBlocks at hb
    obtain ⟨p, hp, rfl⟩ := List.mem_map.1 hb
    exact splitDashesGo_no_sep [] content.toList (by intro j hj; simp at hj) p hp

/-- C3 counterexample: in the second block of this file the failing line
`- ( ) b` is the fifth line of the file, but the reported `line_number`
is 6 — the bookkeeping (newline count + separator) double-counts the line
the separator shares with the end of the previous block. -/
theorem claim_C3_counterexample :
    parse "Q1\n- (X) a\n---\nQ2\n- ( ) b"
      = .error (.detailed
          "Error at line 6: No correct answer marked. Use (X) or [X] to mark correct answers"
          ⟨6, "- ( ) b", "No correct answer marked. Use (X) or [X] to mark correct answers",
            2, ["Q2"], []⟩) ∧
    pyLines "Q1\n- (X) a\n---\nQ2\n- ( ) b" = ["Q1", "- (X) a", "---", "Q2", "- ( ) b"] := by
  exact ⟨by rfl, by rfl⟩

/-- C3 (amended): every detailed parse error comes from a failing block
whose parse fails with exactly the payload's line content and message at
in-block index `idx`; the payload's `line_number` equals that block's
bookkeeping offset plus `idx` plus one (which can differ from the failing
line's true absolute file position), and `context_before` /
`context_after` are exactly the at-most-two-line windows around `idx`
taken from the failing line's own stripped block. -/
theorem claim_C3_error_offset_and_context (content : String) (m : String) (pe : ParseError)
    (h : parse content = .error (.detailed m pe)) :
    ∃ b off idx,
      (b, off) ∈ blocksWithOffsets (splitBlocks content) 0 (splitBlocks content).length 0 ∧
      pyStrip b ≠ "" ∧
      parseQuestionBlock (pyStrip b) = .error ⟨idx, pe.line_content, pe.error_message⟩ ∧
      pe.line_number = off + idx + 1 ∧
      pe.context_before = ((pyLines (pyStrip b)).take idx).drop (idx - 2) ∧
      pe.context_after = ((pyLines (pyStrip b)).drop (idx + 1)).take 2 ∧
      pe.context_before.length ≤ 2 ∧ pe.context_after.length ≤ 2 ∧
      pe.context_before.IsInfix (pyLines (pyStrip b)) ∧
      pe.context_after.IsInfix (pyLines (pyStrip b)) := by
  unfold parse at h
  simp only [] at h
  cases hpl : parseLoop (splitBlocks content) 0 (splitBlocks content).length 0 with
  | error e =>
    rw [hpl] at h
    simp only [Except.error.injEq] at h
    subst h
    exact parseLoop_error_detailed _ _ _ _ _ _ hpl
  | ok qs0 =>
    rw [hpl] at h
    simp only [] at h
    by_cases hemp : qs0.isEmpty
    · rw [if_pos hemp] at h
      simp only [Except.error.injEq] at h
      exact absurd h (by simp)
    · rw [if_neg hemp] at h
      exact absurd h (by simp)

/-- C3 witness. -/
theorem claim_C3_witness :
    ∃ b off idx,
      (b, off) ∈ blocksWithOffsets (splitBlocks "Q") 0 (splitBlocks "Q").length 0 ∧
      pyStrip b ≠ "" ∧
      parseQuestionBlock (pyStrip b)
        = .error ⟨idx, (⟨1, "Q", noAnswersMsg, 1, [], []⟩ : ParseError).line_content,
            (⟨1, "Q", noAnswersMsg, 1, [], []⟩ : ParseError).error_message⟩ ∧
      (⟨1, "Q", noAnswersMsg, 1, [], []⟩ : ParseError).line_number = off + idx + 1 ∧
      (⟨1, "Q", noAnswersMsg, 1, [], []⟩ : ParseError).context_before
        = ((pyLines (pyStrip b)).take idx).drop (idx - 2) ∧
      (⟨1, "Q", noAnswersMsg, 1, [], []⟩ : ParseError).context_after
        = ((pyLines (pyStrip b)).drop (idx + 1)).take 2 ∧
      (⟨1, "Q", noAnswersMsg, 1, [], []⟩ : ParseError).context_before.length ≤ 2 ∧
      (⟨1, "Q", noAnswersMsg, 1, [], []⟩ : ParseError).context_after.length ≤ 2 ∧
      (⟨1, "Q", noAnswersMsg, 1, [], []⟩ : ParseError).context_before.IsInfix
        (pyLines (pyStrip b)) ∧
      (⟨1, "Q", noAnswersMsg, 1, [], []⟩ : ParseError).context_after.IsInfix
        (pyLines (pyStrip b)) :=
  claim_C3_error_offset_and_context "Q"
    ("Error at line 1: " ++ noAnswersMsg)
    ⟨1, "Q", noAnswersMsg, 1, [], []⟩ (by rfl)

/-- C4 counterexample: a block containing answer lines of both marker
shapes can still parse successfully when the bracket-shaped line sits
after the reason marker, and a both-shapes block without question text
fails with the no-question-text error rather than the mixed-types one. -/
theorem claim_C4_counterexample :
    parseQuestionBlock "Q\n- (X) a\n# reason\n- [ ] b"
      = .ok ⟨"Q", [⟨"a", true⟩], "- [ ] b", "single"⟩ ∧
    isAnswerLine "- (X) a" = true ∧ isAnswerLine "- [ ] b" = true ∧
    typeOfLine "- (X) a" = "single" ∧ typeOfLine "- [ ] b" = "multiple" ∧
    parseQuestionBlock "- (X) a\n- [ ] b" = .error ⟨0, "- (X) a", noQuestionTextMsg⟩ := by
  exact ⟨by rfl, by rfl, by rfl, by rfl, by rfl, by rfl⟩

/-- C4 (amended): for every block with nonempty question text whose
answer region contains, before the reason marker, an answer line of the
shape opposite to the block's first answer line, parsing fails with the
mixed-answer-types error at the first such differing line, and no
Question is returned. -/
theorem claim_C4_mixed_types_detection (block : String) (k j : Nat)
    (hq : questionTextOf (pyLines block) ≠ "")
    (hk : (pyLines block).findIdx? isAnswerLine = some k)
    (hj : firstMismatch (typeOfLine ((pyLines block).getD k ""))
        ((pyLines block).drop (k + 1)) = some j) :
    parseQuestionBlock block =
      .error ⟨k + 1 + j, (pyLines block).getD (k + 1 + j) "", mixedTypesMsg⟩ :=
  parseQuestionBlock_mixed block k j hq hk hj

/-- C4 witness. -/
theorem claim_C4_witness :
    parseQuestionBlock "Q\n- (X) a\n- [ ] b" =
      .error ⟨2, (pyLines "Q\n- (X) a\n- [ ] b").getD 2 "", mixedTypesMsg⟩ :=
  claim_C4_mixed_types_detection "Q\n- (X) a\n- [ ] b" 1 0 (by decide) (by rfl) (by rfl)

/-- C5 counterexample: a whitespace-only line interior to a multi-line
continuation is consumed and preserved inside the answer's text. -/
theorem claim_C5_counterexample :
    parseQuestionBlock "Q\n- (X) a\nfoo\n \nbar\n- (x) c"
      = .ok ⟨"Q", [⟨"a\nfoo\n \nbar", true⟩, ⟨"c", true⟩], "", "single"⟩ ∧
    pyStrip " " = "" ∧ ("a\nfoo\n \nbar" : String) ≠ "a\nfoo\nbar" := by
  exact ⟨by rfl, by rfl, by decide⟩

/-- C5 (amended): a run of whitespace-only continuation lines contributes
nothing — the answer's text is then just its marker remainder, stripped —
and continuation consumption happens exactly on the maximal run of lines
following a matched answer line up to the next answer line or reason
marker; whitespace-only lines interior to a continuation run with further
content are preserved. -/
theorem claim_C5_whitespace_handling (t : String) (cont rest : List String)
    (hws : ∀ l ∈ cont, pyStrip l = "") :
    answerTextFrom t cont = pyStrip t ∧
    (takeContinuation rest).1 = rest.takeWhile (fun l => !stopsContinuation l) ∧
    (takeContinuation rest).2 = rest.dropWhile (fun l => !stopsContinuation l) := by
  refine ⟨answerTextFrom_ws t cont hws, ?_, ?_⟩
  · rw [takeContinuation_eq]
  · rw [takeContinuation_eq]

/-- C5 witness. -/
theorem claim_C5_witness :
    answerTextFrom "a" [" ", ""] = pyStrip "a" ∧
    (takeContinuation ["x", "- (X) b"]).1
      = ["x", "- (X) b"].takeWhile (fun l => !stopsContinuation l) ∧
    (takeContinuation ["x", "- (X) b"]).2
      = ["x", "- (X) b"].dropWhile (fun l => !stopsContinuation l) :=
  claim_C5_whitespace_handling "a" [" ", ""] ["x", "- (X) b"] (by decide)

/-- C6: a file whose blocks all strip to empty — including the zero-byte
file — is rejected with the plain `"No questions found in the quiz
file"` error carrying no ParseError payload, while a whitespace-only
block alongside a good block is skipped without any failure. -/
theorem claim_C6_empty_blocks (content : String)
    (h : ∀ b ∈ splitBlocks content, pyStrip b = "") :
    parse content = .error (.plain noQuestionsFoundMsg) ∧
    parse "Q\n- (X) a\n---\n \n" = .ok [⟨"Q", [⟨"a", true⟩], "", "single"⟩] := by
  constructor
  · unfold parse
    simp only []
    rw [parseLoop_all_ws (splitBlocks content) 0 (splitBlocks content).length 0 h]
    rfl
  · rfl

/-- C6 witness (the zero-byte file). -/
theorem claim_C6_witness :
    parse "" = .error (.plain noQuestionsFoundMsg) ∧
    parse "Q\n- (X) a\n---\n \n" = .ok [⟨"Q", [⟨"a", true⟩], "", "single"⟩] :=
  claim_C6_empty_blocks "" (by decide)

/-- C7: a block with nonempty question text whose answer collection
yields at least one answer, none of them flagged `X`/`x`, fails with the
no-correct-answer error pointing at the block's first answer line. -/
theorem claim_C7_no_correct_answer (block : String) (as : List Answer)
    (qt : Option String) (ridx : Nat)
    (hq : questionTextOf (pyLines block) ≠ "")
    (hc : collectAnswersOf block = .ok (as, qt, ridx))
    (hne : as ≠ [])
    (hnc : ∀ a ∈ as, a.is_correct = false) :
    ∃ k, (pyLines block).findIdx? isAnswerLine = some k ∧
      parseQuestionBlock block = .error ⟨k, (pyLines block).getD k "", noCorrectMsg⟩ :=
  parseQuestionBlock_no_correct block as qt ridx hq hc hne hnc

/-- C7 witness. -/
theorem claim_C7_witness :
    ∃ k, (pyLines "Q\n- ( ) a").findIdx? isAnswerLine = some k ∧
      parseQuestionBlock "Q\n- ( ) a"
        = .error ⟨k, (pyLines "Q\n- ( ) a").getD k "", noCorrectMsg⟩ :=
  claim_C7_no_correct_answer "Q\n- ( ) a" [⟨"a", false⟩] (some "single") 2
    (by decide) (by rfl) (by decide) (by decide)

/-- C8: `parse_quiz_file` builds a fresh parser state per call, so its
result is the pure function `parse` of the file content alone —
parsing is deterministic and no state crosses invocations. -/
theorem claim_C8_deterministic_stateless (c1 c2 : String) :
    parse_quiz_file c1 = parse c1 ∧
    (c1 = c2 → parse_quiz_file c1 = parse_quiz_file c2) := by
  refine ⟨parse_quiz_file_eq c1, ?_⟩
  intro h
  rw [h]

/-- C8 witness. -/
theorem claim_C8_witness :
    parse_quiz_file "Q\n- (X) a" = parse "Q\n- (X) a" ∧
    parse_quiz_file "Q\n- (X) a" = parse_quiz_file "Q\n- (X) a" :=
  ⟨(claim_C8_deterministic_stateless "Q\n- (X) a" "Q\n- (X) a").1,
   (claim_C8_deterministic_stateless "Q\n- (X) a" "Q\n- (X) a").2 rfl⟩

/-- C9: a line is an answer line only when it starts at column zero with
a dash followed by at least one whitespace character and then a
parenthesis or bracket marker; an indented line or a dash without
following whitespace is not an answer line, and such lines are absorbed
into the preceding answer's continuation or the question text. -/
theorem claim_C9_answer_line_recognition :
    (∀ l : String, isAnswerLine l = true →
      ∃ ws mid, l.toList = '-' :: (ws ++ mid) ∧ ws ≠ [] ∧
        (∀ c ∈ ws, isPySpace c = true) ∧
        (mid.head? = some '(' ∨ mid.head? = some '[')) ∧
    (∀ (c : Char) (cs : List Char), isPySpace c = true →
      isAnswerLine (String.mk (c :: cs)) = false) ∧
    (∀ (c : Char) (cs : List Char), isPySpace c = false →
      isAnswerLine (String.mk ('-' :: c :: cs)) = false) ∧
    parseQuestionBlock "Q\n- (X) a\n  - ( ) b\n- (X) c"
      = .ok ⟨"Q", [⟨"a\n  - ( ) b", true⟩, ⟨"c", true⟩], "", "single"⟩ ∧
    parseQuestionBlock "Q\n-(X) zzz\n- (X) a"
      = .ok ⟨"Q\n-(X) zzz", [⟨"a", true⟩], "", "single"⟩ := by
  refine ⟨?_, ?_, ?_, by rfl, by rfl⟩
  · intro l hl
    unfold isAnswerLine at hl
    rcases Bool.or_eq_true_iff.1 hl with h1 | h1
    · obtain ⟨v, hv⟩ := Option.isSome_iff_exists.1 h1
      obtain ⟨ws, mid, hdec, hne, hws, hh⟩ := matchAnswer_shape hv
      exact ⟨ws, mid, hdec, hne, hws, Or.inl hh⟩
    · obtain ⟨v, hv⟩ := Option.isSome_iff_exists.1 h1
      obtain ⟨ws, mid, hdec, hne, hws, hh⟩ := matchAnswer_shape hv
      exact ⟨ws, mid, hdec, hne, hws, Or.inr hh⟩
  · intro c cs hc
    have hcd : c ≠ '-' := by
      intro hx
      rw [hx] at hc
      exact absurd hc (by decide)
    unfold isAnswerLine matchSingle matchMultiple
    rw [matchAnswer_not_dash _ _ c cs hcd, matchAnswer_not_dash _ _ c cs hcd]
    rfl
  · intro c cs hc
    unfold isAnswerLine matchSingle matchMultiple
    rw [matchAnswer_no_space _ _ c cs hc, matchAnswer_no_space _ _ c cs hc]
    rfl

/-- C9 witness. -/
theorem claim_C9_witness :
    isAnswerLine (String.mk (' ' :: ['-', ' ', '(', 'X', ')'])) = false ∧
    isAnswerLine (String.mk ('-' :: '(' :: ['X', ')', ' ', 'a'])) = false :=
  ⟨claim_C9_answer_line_recognition.2.1 ' ' ['-', ' ', '(', 'X', ')'] (by decide),
   claim_C9_answer_line_recognition.2.2.1 '(' ['X', ')', ' ', 'a'] (by decide)⟩

/-- C10: the AllInOne exporter always emits exactly five option fields
and a five-entry bit list; short questions are padded with empty options
and `"0"` bits, and answers beyond the fifth change nothing in either the
options or the bits. -/
theorem claim_C10_anki_pad_truncate (q : Question) (j : Nat) (hj : j < 5) :
    (optionFieldsList q).length = 5 ∧
    (binaryBits q).length = 5 ∧
    formatAnswerOptions ⟨q.text, q.answers.take 5, q.reason, q.question_type⟩
      = formatAnswerOptions q ∧
    formatAnswersBinary ⟨q.text, q.answers.take 5, q.reason, q.question_type⟩
      = formatAnswersBinary q ∧
    (optionFieldsList q).getD j ""
      = (if j < q.answers.length
         then normalizeText ((q.answers.getD j ⟨"", false⟩).text) else "") ∧
    (binaryBits q).getD j ""
      = (if j < q.answers.length ∧ (q.answers.getD j ⟨"", false⟩).is_correct = true
         then "1" else "0") := by
  refine ⟨?_, binaryBits_length q, formatAnswerOptions_take q, ?_, ?_, binaryBits_getD q j hj⟩
  · unfold optionFieldsList
    rw [formatAnswerOptions_eq]
    rfl
  · unfold formatAnswersBinary
    rw [binaryBits_take]
  · have hl : optionFieldsList q = [optField q.answers 0, optField q.answers 1,
        optField q.answers 2, optField q.answers 3, optField q.answers 4] := by
      unfold optionFieldsList
      rw [formatAnswerOptions_eq]
    rw [hl]
    match j, hj with
    | 0, _ => rw [show ([optField q.answers 0, optField q.answers 1, optField q.answers 2,
        optField q.answers 3, optField q.answers 4].getD 0 "") = optField q.answers 0 from rfl]; rfl
    | 1, _ => rfl
    | 2, _ => rfl
    | 3, _ => rfl
    | 4, _ => rfl

/-- C10 witness. -/
theorem claim_C10_witness :
    (optionFieldsList ⟨"q", [⟨"a", true⟩], "", "single"⟩).length = 5 ∧
    (binaryBits ⟨"q", [⟨"a", true⟩], "", "single"⟩).length = 5 ∧
    formatAnswerOptions ⟨(⟨"q", [⟨"a", true⟩], "", "single"⟩ : Question).text,
        (⟨"q", [⟨"a", true⟩], "", "single"⟩ : Question).answers.take 5,
        (⟨"q", [⟨"a", true⟩], "", "single"⟩ : Question).reason,
        (⟨"q", [⟨"a", true⟩], "", "single"⟩ : Question).question_type⟩
      = formatAnswerOptions ⟨"q", [⟨"a", true⟩], "", "single"⟩ ∧
    formatAnswersBinary ⟨(⟨"q", [⟨"a", true⟩], "", "single"⟩ : Question).text,
        (⟨"q", [⟨"a", true⟩], "", "single"⟩ : Question).answers.take 5,
        (⟨"q", [⟨"a", true⟩], "", "single"⟩ : Question).reason,
        (⟨"q", [⟨"a", true⟩], "", "single"⟩ : Question).question_type⟩
      = formatAnswersBinary ⟨"q", [⟨"a", true⟩], "", "single"⟩ ∧
    (optionFieldsList ⟨"q", [⟨"a", true⟩], "", "single"⟩).getD 4 ""
      = (if 4 < (⟨"q", [⟨"a", true⟩], "", "single"⟩ : Question).answers.length
         then normalizeText (((⟨"q", [⟨"a", true⟩], "", "single"⟩ : Question).answers.getD 4
           ⟨"", false⟩).text) else "") ∧
    (binaryBits ⟨"q", [⟨"a", true⟩], "", "single"⟩).getD 4 ""
      = (if 4 < (⟨"q", [⟨"a", true⟩], "", "single"⟩ : Question).answers.length ∧
           ((⟨"q", [⟨"a", true⟩], "", "single"⟩ : Question).answers.getD 4
             ⟨"", false⟩).is_correct = true
         then "1" else "0") :=
  claim_C10_anki_pad_truncate ⟨"q", [⟨"a", true⟩], "", "single"⟩ 4 (by decide)
